import Mathlib

/-!
Verification development for the CasperLabs execution-engine core:
the tracking-copy state layer (`engine-core/src/tracking_copy/mod.rs`),
the typed value layer (`contract-ffi/src/value/cl_value.rs`) and the
wasm host runtime (`engine/src/execution.rs`).

Shallow embedding conventions:
* machine integers are `Nat` bit patterns with explicit `% 2^w` where
  overflow matters;
* byte strings are `List Nat` (each entry a byte value);
* Rust `String`s that cross the serialization boundary are modelled as
  their UTF-8 byte lists (`RustStr := List Nat`); diagnostic strings
  that are only compared for equality stay Lean `String`s;
* fallible code returns `Except`/`Option`;
* hash maps are association lists (iteration order of Rust hash maps is
  not observable by any property proved here).

The serialization codec (`bytesrepr`), the `Key`/`CLType`/`StoredValue`
data model and the transform algebra live in crates of this repository
that are not present under `src/` (`types`, `engine-shared`); they are
modelled from the spec (sections 3, 4.1 and the Transform description)
and each such definition is marked `Modelled from the spec:` in its doc
comment.
-/

set_option autoImplicit false

namespace Casper

/-! ### Serialization codec primitives

Modelled from the spec, section 4.1: fixed-width integers are
little-endian; big integers are one length byte followed by that many
little-endian bytes; variable-length bytes and strings carry a 32-bit
length prefix; sum tags are a one-byte discriminant. -/

/-- Codec failure kinds, modelled from the spec section 4.1. -/
inductive BErr
  | earlyEndOfStream
  | formattingError
  | leftOverBytes
  | outOfMemoryError
deriving DecidableEq, Repr

/-- Little-endian bytes of `x`, exactly `n` bytes (`x` truncated mod `256^n`). -/
def leBytes : Nat → Nat → List Nat
  | 0, _ => []
  | n + 1, x => (x % 256) :: leBytes n (x / 256)

/-- Value of a little-endian byte list. -/
def leVal : List Nat → Nat
  | [] => 0
  | b :: bs => b + 256 * leVal bs

/-- Reads exactly `n` bytes from the stream. -/
def readN : Nat → List Nat → Except BErr (List Nat × List Nat)
  | 0, bs => .ok ([], bs)
  | _ + 1, [] => .error .earlyEndOfStream
  | n + 1, b :: bs =>
    match readN n bs with
    | .ok (xs, r) => .ok (b :: xs, r)
    | .error e => .error e

/-- Decodes an `n`-byte little-endian fixed-width integer. -/
def fixedDec (n : Nat) (bs : List Nat) : Except BErr (Nat × List Nat) :=
  match readN n bs with
  | .ok (xs, r) => .ok (leVal xs, r)
  | .error e => .error e

/-- 32-bit little-endian length prefix used throughout the codec. -/
def u32le (x : Nat) : List Nat := leBytes 4 x

/-- Decodes a 32-bit little-endian integer. -/
def u32dec (bs : List Nat) : Except BErr (Nat × List Nat) := fixedDec 4 bs

/-- Minimal little-endian byte representation of a natural number
(empty for zero), used by the big-integer encoding. -/
def minimalLE : Nat → List Nat
  | 0 => []
  | n + 1 => ((n + 1) % 256) :: minimalLE ((n + 1) / 256)
decreasing_by exact Nat.div_lt_self (Nat.succ_pos n) (by omega)

/-- Big-integer encoding (U128/U256/U512): one length byte then that
many little-endian bytes; zero length means zero. -/
def bigIntEnc (x : Nat) : List Nat := (minimalLE x).length :: minimalLE x

/-- Big-integer decoding: length byte, then that many bytes. -/
def bigIntDec (bs : List Nat) : Except BErr (Nat × List Nat) :=
  match bs with
  | [] => .error .earlyEndOfStream
  | n :: r =>
    match readN n r with
    | .ok (xs, rest) => .ok (leVal xs, rest)
    | .error e => .error e

/-- Rust strings crossing the codec are modelled as their UTF-8 bytes. -/
abbrev RustStr := List Nat

/-- String/byte-vector encoding: 32-bit length prefix then payload. -/
def strEnc (s : RustStr) : List Nat := u32le s.length ++ s

/-- String/byte-vector decoding: read the 32-bit length, then that many bytes. -/
def strDec (bs : List Nat) : Except BErr (RustStr × List Nat) :=
  match u32dec bs with
  | .ok (n, r) => readN n r
  | .error e => .error e

/-! ### Keys

Modelled from the spec, section 3: a tagged sum over address spaces.
Addresses are 32-byte values modelled as `Nat` bit patterns; the
access-rights bitfield of a URef is an optional byte.
`Key.normalize` strips access rights from URefs so equality is
address-based. -/

/-- Global-state key. Modelled from the spec: tagged sum
Account / Hash / URef(address, access rights) / Local. -/
inductive Key
  | account (addr : Nat)
  | hash (addr : Nat)
  | uref (addr : Nat) (rights : Option Nat)
  | loc (hsh : Nat)
deriving DecidableEq, Repr

/-- Strips access rights from URefs so that equality is address-based
(spec section 3, `Key::normalize`). -/
def Key.normalize : Key → Key
  | .uref addr _ => .uref addr none
  | k => k

/-- Key serialization: one-byte discriminant, 32-byte little-endian
address, and for URefs the optional access-rights byte.
Modelled from the spec, sections 4.1 and 6. -/
def keyEnc : Key → List Nat
  | .account a => 0 :: leBytes 32 a
  | .hash a => 1 :: leBytes 32 a
  | .uref a none => 2 :: (leBytes 32 a ++ [0])
  | .uref a (some r) => 2 :: (leBytes 32 a ++ [1, r % 256])
  | .loc h => 3 :: leBytes 32 h

/-- Key deserialization, inverse of `keyEnc`. -/
def keyDec (bs : List Nat) : Except BErr (Key × List Nat) :=
  match bs with
  | [] => .error .earlyEndOfStream
  | t :: r =>
    match t with
    | 0 =>
      match fixedDec 32 r with
      | .ok (a, rest) => .ok (.account a, rest)
      | .error e => .error e
    | 1 =>
      match fixedDec 32 r with
      | .ok (a, rest) => .ok (.hash a, rest)
      | .error e => .error e
    | 2 =>
      match fixedDec 32 r with
      | .ok (a, rest) =>
        match rest with
        | [] => .error .earlyEndOfStream
        | 0 :: rest2 => .ok (.uref a none, rest2)
        | 1 :: rb :: rest2 => .ok (.uref a (some rb), rest2)
        | 1 :: [] => .error .earlyEndOfStream
        | _ :: _ => .error .formattingError
      | .error e => .error e
    | 3 =>
      match fixedDec 32 r with
      | .ok (a, rest) => .ok (.loc a, rest)
      | .error e => .error e
    | _ => .error .formattingError

/-- Well-formed key: addresses fit in 32 bytes and the rights bitfield
in one byte, matching the Rust fixed-size arrays. -/
def Key.wfB : Key → Bool
  | .account a => a < 2 ^ 256
  | .hash a => a < 2 ^ 256
  | .uref a none => a < 2 ^ 256
  | .uref a (some r) => a < 2 ^ 256 && r < 256
  | .loc h => h < 2 ^ 256

/-! ### CLType

Modelled from the spec, section 3: a recursive tag with primitives,
parameterised types and Any; serialization is a one-byte discriminant
followed by the parameters. -/

/-- Self-describing value type tag (spec section 3). -/
inductive CLType
  | bool | i32 | i64 | u8 | u32 | u64 | u128 | u256 | u512
  | unit | string | key | uref | publicKey
  | option (t : CLType)
  | list (t : CLType)
  | fixedList (t : CLType) (n : Nat)
  | result (tok terr : CLType)
  | map (tk tv : CLType)
  | tuple1 (a : CLType)
  | tuple2 (a b : CLType)
  | tuple3 (a b c : CLType)
  | any
deriving DecidableEq, Repr

/-- CLType serialization: one-byte discriminant then recursive
parameters (the fixed-list length as a u32). Modelled from the spec,
section 4.1. -/
def clTypeEnc : CLType → List Nat
  | .bool => [0]
  | .i32 => [1]
  | .i64 => [2]
  | .u8 => [3]
  | .u32 => [4]
  | .u64 => [5]
  | .u128 => [6]
  | .u256 => [7]
  | .u512 => [8]
  | .unit => [9]
  | .string => [10]
  | .key => [11]
  | .uref => [12]
  | .option t => 13 :: clTypeEnc t
  | .list t => 14 :: clTypeEnc t
  | .fixedList t n => 15 :: (clTypeEnc t ++ u32le n)
  | .result a b => 16 :: (clTypeEnc a ++ clTypeEnc b)
  | .map a b => 17 :: (clTypeEnc a ++ clTypeEnc b)
  | .tuple1 a => 18 :: clTypeEnc a
  | .tuple2 a b => 19 :: (clTypeEnc a ++ clTypeEnc b)
  | .tuple3 a b c => 20 :: (clTypeEnc a ++ clTypeEnc b ++ clTypeEnc c)
  | .any => [21]
  | .publicKey => [22]

/-- Nesting depth of a CLType, a fuel bound for the decoder. -/
def CLType.depth : CLType → Nat
  | .option t | .list t | .tuple1 t | .fixedList t _ => t.depth + 1
  | .result a b | .map a b | .tuple2 a b => max a.depth b.depth + 1
  | .tuple3 a b c => max (max a.depth b.depth) c.depth + 1
  | _ => 1

/-- CLType deserialization with explicit fuel (any fuel at least the
encoded type's depth suffices). -/
def clTypeDecGo : Nat → List Nat → Except BErr (CLType × List Nat)
  | 0, _ => .error .earlyEndOfStream
  | _ + 1, [] => .error .earlyEndOfStream
  | f + 1, t :: bs =>
    match t with
    | 0 => .ok (.bool, bs)
    | 1 => .ok (.i32, bs)
    | 2 => .ok (.i64, bs)
    | 3 => .ok (.u8, bs)
    | 4 => .ok (.u32, bs)
    | 5 => .ok (.u64, bs)
    | 6 => .ok (.u128, bs)
    | 7 => .ok (.u256, bs)
    | 8 => .ok (.u512, bs)
    | 9 => .ok (.unit, bs)
    | 10 => .ok (.string, bs)
    | 11 => .ok (.key, bs)
    | 12 => .ok (.uref, bs)
    | 13 =>
      match clTypeDecGo f bs with
      | .ok (t1, r) => .ok (.option t1, r)
      | .error e => .error e
    | 14 =>
      match clTypeDecGo f bs with
      | .ok (t1, r) => .ok (.list t1, r)
      | .error e => .error e
    | 15 =>
      match clTypeDecGo f bs with
      | .ok (t1, r) =>
        match u32dec r with
        | .ok (n, r2) => .ok (.fixedList t1 n, r2)
        | .error e => .error e
      | .error e => .error e
    | 16 =>
      match clTypeDecGo f bs with
      | .ok (t1, r) =>
        match clTypeDecGo f r with
        | .ok (t2, r2) => .ok (.result t1 t2, r2)
        | .error e => .error e
      | .error e => .error e
    | 17 =>
      match clTypeDecGo f bs with
      | .ok (t1, r) =>
        match clTypeDecGo f r with
        | .ok (t2, r2) => .ok (.map t1 t2, r2)
        | .error e => .error e
      | .error e => .error e
    | 18 =>
      match clTypeDecGo f bs with
      | .ok (t1, r) => .ok (.tuple1 t1, r)
      | .error e => .error e
    | 19 =>
      match clTypeDecGo f bs with
      | .ok (t1, r) =>
        match clTypeDecGo f r with
        | .ok (t2, r2) => .ok (.tuple2 t1 t2, r2)
        | .error e => .error e
      | .error e => .error e
    | 20 =>
      match clTypeDecGo f bs with
      | .ok (t1, r) =>
        match clTypeDecGo f r with
        | .ok (t2, r2) =>
          match clTypeDecGo f r2 with
          | .ok (t3, r3) => .ok (.tuple3 t1 t2 t3, r3)
          | .error e => .error e
        | .error e => .error e
      | .error e => .error e
    | 21 => .ok (.any, bs)
    | 22 => .ok (.publicKey, bs)
    | _ => .error .formattingError

/-- Well-formed CLType: fixed-list lengths fit in a u32 (they are `u32`
in the Rust type). -/
def CLType.wfB : CLType → Bool
  | .option t | .list t | .tuple1 t => t.wfB
  | .fixedList t n => t.wfB && n < 2 ^ 32
  | .result a b | .map a b | .tuple2 a b => a.wfB && b.wfB
  | .tuple3 a b c => a.wfB && b.wfB && c.wfB
  | _ => true

/-! ### CLValue

Embeds `contract-ffi/src/value/cl_value.rs`: a pair of a `CLType` and
opaque bytes, with type-checked extraction and three serialization
directions (`IntoBytes`, `ToBytes`, `FromBytes`). -/

/-- A self-describing typed value: `(cl_type, bytes)`
(`cl_value.rs`, `struct CLValue`). -/
structure CLValue where
  clType : CLType
  bytes : List Nat
deriving DecidableEq, Repr

/-- Mismatch record carried by a failed extraction
(`cl_value.rs`, `struct CLTypeMismatch`). -/
structure CLTypeMismatch where
  expected : CLType
  found : CLType
deriving DecidableEq, Repr

/-- Extraction/construction failure (`cl_value.rs`, `enum CLValueError`). -/
inductive CLValueError
  | serialization (e : BErr)
  | type (tm : CLTypeMismatch)
deriving DecidableEq, Repr

/-- A Rust `CLTyped + ToBytes + FromBytes` instance for a host type
`α`: its CLType tag and its codec. Encoding is total here; the
encoding-side `OutOfMemoryError` (payloads of 2^32 bytes or more) is
not modelled, and theorems carry the corresponding explicit bounds. -/
structure CLTypedInst (α : Type) where
  clType : CLType
  encode : α → List Nat
  decode : List Nat → Except BErr (α × List Nat)

/-- CLValue construction (`cl_value.rs`, `CLValue::from_t`): encode the
value and attach the type's tag. -/
def fromT {α : Type} (inst : CLTypedInst α) (x : α) : CLValue :=
  { clType := inst.clType, bytes := inst.encode x }

/-- Type-checked extraction (`cl_value.rs`, `CLValue::into_t`): if the
tags agree, delegate to the codec's top-level deserialize (which
refuses trailing input); otherwise report the mismatch with
`expected` the target type and `found` the value's type. -/
def intoT {α : Type} (inst : CLTypedInst α) (cv : CLValue) : Except CLValueError α :=
  if cv.clType = inst.clType then
    match inst.decode cv.bytes with
    | .ok (x, []) => .ok x
    | .ok (_, _ :: _) => .error (.serialization .leftOverBytes)
    | .error e => .error (.serialization e)
  else
    .error (.type { expected := inst.clType, found := cv.clType })

/-- Rust `i32` (as a 32-bit two's-complement bit pattern). -/
def i32Inst : CLTypedInst Nat :=
  { clType := .i32, encode := leBytes 4, decode := fixedDec 4 }

/-- Rust `u64`. -/
def u64Inst : CLTypedInst Nat :=
  { clType := .u64, encode := leBytes 8, decode := fixedDec 8 }

/-- Rust `U128` (big-integer encoding). -/
def u128Inst : CLTypedInst Nat :=
  { clType := .u128, encode := bigIntEnc, decode := bigIntDec }

/-- Rust `U256`. -/
def u256Inst : CLTypedInst Nat :=
  { clType := .u256, encode := bigIntEnc, decode := bigIntDec }

/-- Rust `U512`. -/
def u512Inst : CLTypedInst Nat :=
  { clType := .u512, encode := bigIntEnc, decode := bigIntDec }

/-- Rust `Key`. -/
def keyInst : CLTypedInst Key :=
  { clType := .key, encode := keyEnc, decode := keyDec }

/-- The named-key type `Tuple2(String, Key)`
(`types::named_key_type()` in `tracking_copy/mod.rs`). -/
def namedKeyType : CLType := .tuple2 .string .key

/-- Decodes a `(String, Key)` pair: the two components in sequence. -/
def namedKeyDec (bs : List Nat) : Except BErr ((RustStr × Key) × List Nat) :=
  match strDec bs with
  | .ok (s, r) =>
    match keyDec r with
    | .ok (k, r2) => .ok ((s, k), r2)
    | .error e => .error e
  | .error e => .error e

/-- Rust `(String, Key)`: tuples serialize as the concatenation of
their components (spec section 4.1). -/
def namedKeyInst : CLTypedInst (RustStr × Key) :=
  { clType := namedKeyType
    encode := fun p => strEnc p.1 ++ keyEnc p.2
    decode := namedKeyDec }

/-! ### CLValue serialization

The three serialization directions of `cl_value.rs`:
* `impl IntoBytes for CLValue` (lines 74-85) writes the type tag first,
  then the length-prefixed bytes, guarded by an `OutOfMemoryError`
  check on `serialized_len`;
* `impl ToBytes for CLValue` (lines 87-97) writes the length-prefixed
  bytes first, then appends the type tag;
* `impl FromBytes for CLValue` (lines 99-106) reads the length-prefixed
  bytes first, then the type tag. -/

/-- `Vec<u8>::to_bytes`: 32-bit length prefix then the raw bytes;
refuses payloads whose length exceeds `u32::MAX`. Modelled from the
spec, section 4.1. -/
def vecU8ToBytes (bs : List Nat) : Except BErr (List Nat) :=
  if bs.length < 2 ^ 32 then .ok (u32le bs.length ++ bs) else .error .outOfMemoryError

/-- `Vec<u8>::from_bytes`: read the 32-bit length, then that many bytes. -/
def vecU8FromBytes (bs : List Nat) : Except BErr (List Nat × List Nat) :=
  match u32dec bs with
  | .ok (n, r) => readN n r
  | .error e => .error e

/-- `CLValue::serialized_len` (`cl_value.rs`, lines 69-71): type-tag
length plus the u32 size prefix plus the payload length. -/
def serializedLen (cv : CLValue) : Nat :=
  (clTypeEnc cv.clType).length + 4 + cv.bytes.length

/-- The `impl IntoBytes for CLValue` serializer (`cl_value.rs`, lines
74-85): OOM check on `serialized_len`, then the TYPE TAG first,
followed by the length-prefixed bytes. -/
def clValueIntoBytes (cv : CLValue) : Except BErr (List Nat) :=
  if serializedLen cv > 2 ^ 32 - 1 then .error .outOfMemoryError
  else
    match vecU8ToBytes cv.bytes with
    | .ok payload => .ok (clTypeEnc cv.clType ++ payload)
    | .error e => .error e

/-- The `impl ToBytes for CLValue` serializer (`cl_value.rs`, lines
92-96): the length-prefixed bytes first, then the type tag appended
via `CLType::append_bytes`. `to_bytes` clones and delegates to the
same function. -/
def clValueToBytes (cv : CLValue) : Except BErr (List Nat) :=
  match vecU8ToBytes cv.bytes with
  | .ok payload => .ok (payload ++ clTypeEnc cv.clType)
  | .error e => .error e

/-- The `impl FromBytes for CLValue` deserializer (`cl_value.rs`, lines
99-106): the length-prefixed bytes first, then the type. -/
def clValueFromBytes (bs : List Nat) : Except BErr (CLValue × List Nat) :=
  match vecU8FromBytes bs with
  | .ok (bytes, r) =>
    match clTypeDecGo r.length r with
    | .ok (t, r2) => .ok ({ clType := t, bytes := bytes }, r2)
    | .error e => .error e
  | .error e => .error e

/-- Top-level `bytesrepr::deserialize` for CLValue: parse and refuse
trailing input (spec section 4.1, `LeftOverBytes`). Modelled from the
spec. -/
def deserializeCLValue (bs : List Nat) : Except BErr CLValue :=
  match clValueFromBytes bs with
  | .ok (cv, []) => .ok cv
  | .ok (_, _ :: _) => .error .leftOverBytes
  | .error e => .error e

/-! ### StoredValue and the transform algebra

`StoredValue`, `Transform`, `Op` and `AdditiveMap` live in the
`engine-shared` crate, which is not under `src/`; they are modelled
from the spec, section 3. -/

/-- Association-list lookup (hash-map reads; iteration order of the
Rust maps is not observable by the properties proved here). -/
def assocLookup {α β : Type} [DecidableEq α] : List (α × β) → α → Option β
  | [], _ => none
  | e :: rest, k => if e.1 = k then some e.2 else assocLookup rest k

/-- Removes every binding of `k`. -/
def assocErase {α β : Type} [DecidableEq α] (l : List (α × β)) (k : α) : List (α × β) :=
  l.filter (fun e => decide (e.1 ≠ k))

/-- Hash-map insert: overwrite any existing binding of `k`. -/
def assocInsert {α β : Type} [DecidableEq α] (k : α) (v : β) (l : List (α × β)) :
    List (α × β) :=
  assocErase l k ++ [(k, v)]

/-- `AdditiveMap::insert_add`: inserting at an existing key composes
the old and new values with `+`. Modelled from the spec, section 3. -/
def insertAdd {α β : Type} [DecidableEq α] (plus : β → β → β) (l : List (α × β))
    (k : α) (v : β) : List (α × β) :=
  match assocLookup l k with
  | some old => assocInsert k (plus old v) l
  | none => l ++ [(k, v)]

/-- An account: its named keys (the only field the embedded operations
observe). Modelled from the spec, section 3. -/
structure Account where
  namedKeys : List (RustStr × Key)
deriving DecidableEq, Repr

/-- A contract: its named keys. Modelled from the spec, section 3. -/
structure Contract where
  namedKeys : List (RustStr × Key)
deriving DecidableEq, Repr

/-- A stored value: sum of CLValue, Account, Contract, ContractPackage
and ContractWasm. Modelled from the spec, section 3 (the package/wasm
payloads are opaque to every embedded operation). -/
inductive StoredValue
  | clValue (cv : CLValue)
  | account (a : Account)
  | contract (c : Contract)
  | contractPackage
  | contractWasm
deriving DecidableEq, Repr

/-- Debug rendering of a CLType, used in diagnostic strings. -/
def clTypeName : CLType → String
  | .bool => "Bool"
  | .i32 => "I32"
  | .i64 => "I64"
  | .u8 => "U8"
  | .u32 => "U32"
  | .u64 => "U64"
  | .u128 => "U128"
  | .u256 => "U256"
  | .u512 => "U512"
  | .unit => "Unit"
  | .string => "String"
  | .key => "Key"
  | .uref => "URef"
  | .publicKey => "PublicKey"
  | .option t => "Option(" ++ clTypeName t ++ ")"
  | .list t => "List(" ++ clTypeName t ++ ")"
  | .fixedList t n => "FixedList(" ++ clTypeName t ++ ", " ++ toString n ++ ")"
  | .result a b => "Result(" ++ clTypeName a ++ ", " ++ clTypeName b ++ ")"
  | .map a b => "Map(" ++ clTypeName a ++ ", " ++ clTypeName b ++ ")"
  | .tuple1 a => "Tuple1(" ++ clTypeName a ++ ")"
  | .tuple2 a b => "Tuple2(" ++ clTypeName a ++ ", " ++ clTypeName b ++ ")"
  | .tuple3 a b c =>
    "Tuple3(" ++ clTypeName a ++ ", " ++ clTypeName b ++ ", " ++ clTypeName c ++ ")"
  | .any => "Any"

/-- `StoredValue::type_name`, used in diagnostic messages; the CLValue
variant reports its CLType. Modelled from the spec, section 3. -/
def typeName : StoredValue → String
  | .clValue cv => clTypeName cv.clType
  | .account _ => "Account"
  | .contract _ => "Contract"
  | .contractPackage => "ContractPackage"
  | .contractWasm => "ContractWasm"

/-- The `engine_shared::TypeMismatch` diagnostic record: expected and
found descriptors as strings. Modelled from the spec. -/
structure TypeMismatch where
  expected : String
  found : String
deriving DecidableEq, Repr

/-- `engine_shared::transform::Error`: the two failure kinds a
transform application can produce (`tracking_copy/mod.rs`, lines
321-324 match exactly these). Modelled from the spec. -/
inductive TransformError
  | typeMismatch (tm : TypeMismatch)
  | serialization (e : BErr)
deriving DecidableEq, Repr

/-- The transform algebra. Modelled from the spec, section 3:
Identity / Write / wrapping AddIntN / AddKeys / absorbing Failure. -/
inductive Transform
  | identity
  | write (v : StoredValue)
  | addInt32 (n : Nat)
  | addUInt64 (n : Nat)
  | addUInt128 (n : Nat)
  | addUInt256 (n : Nat)
  | addUInt512 (n : Nat)
  | addKeys (m : List (RustStr × Key))
  | failure (e : TransformError)
deriving DecidableEq, Repr

/-- Applies a numeric add transform: the current value must be a
CLValue of the same width; the sum wraps. Modelled from the spec,
section 3 and section 4.4 step 4. -/
def applyAddNum (inst : CLTypedInst Nat) (modulus n : Nat) :
    StoredValue → Except TransformError StoredValue
  | .clValue cv =>
    match intoT inst cv with
    | .ok m => .ok (.clValue (fromT inst ((m + n) % modulus)))
    | .error (.type tm) =>
      .error (.typeMismatch { expected := clTypeName tm.expected, found := clTypeName tm.found })
    | .error (.serialization e) => .error (.serialization e)
  | v => .error (.typeMismatch { expected := clTypeName inst.clType, found := typeName v })

/-- Merges named-key maps; later entries overwrite on duplicate name
(spec section 3, AddKeys). -/
def mergeNamed (base extra : List (RustStr × Key)) : List (RustStr × Key) :=
  extra.foldl (fun acc e => assocInsert e.1 e.2 acc) base

/-- `Transform::apply`: Identity keeps the current value, Write
replaces it, AddIntN wrap-adds into a same-width CLValue, AddKeys
merges into an Account's or Contract's named keys, Failure fails.
Modelled from the spec, section 3. -/
def Transform.apply : Transform → StoredValue → Except TransformError StoredValue
  | .identity, v => .ok v
  | .write w, _ => .ok w
  | .addInt32 n, v => applyAddNum i32Inst (2 ^ 32) n v
  | .addUInt64 n, v => applyAddNum u64Inst (2 ^ 64) n v
  | .addUInt128 n, v => applyAddNum u128Inst (2 ^ 128) n v
  | .addUInt256 n, v => applyAddNum u256Inst (2 ^ 256) n v
  | .addUInt512 n, v => applyAddNum u512Inst (2 ^ 512) n v
  | .addKeys m, .account a => .ok (.account { namedKeys := mergeNamed a.namedKeys m })
  | .addKeys m, .contract c => .ok (.contract { namedKeys := mergeNamed c.namedKeys m })
  | .addKeys _, v => .error (.typeMismatch { expected := "Contract or Account", found := typeName v })
  | .failure e, _ => .error e

/-- Descriptor of a transform's additive kind, for composition
mismatch diagnostics. -/
def transformKind : Transform → String
  | .identity => "Identity"
  | .write _ => "Write"
  | .addInt32 _ => "AddInt32"
  | .addUInt64 _ => "AddUInt64"
  | .addUInt128 _ => "AddUInt128"
  | .addUInt256 _ => "AddUInt256"
  | .addUInt512 _ => "AddUInt512"
  | .addKeys _ => "AddKeys"
  | .failure _ => "Failure"

/-- Transform composition (`a + b`, `b` after `a`): Identity is
neutral, a later Write absorbs, a Write followed by an add applies the
add to the written value, equal-width adds wrap-add, AddKeys merge,
mixed additive kinds fail, Failure absorbs. Modelled from the spec,
section 3 (so that `(a + b).apply x = b.apply (a.apply x)` where both
sides succeed). -/
def Transform.add : Transform → Transform → Transform
  | .failure e, _ => .failure e
  | _, .failure e => .failure e
  | .identity, b => b
  | a, .identity => a
  | _, .write v => .write v
  | .write v, b =>
    match b.apply v with
    | .ok v2 => .write v2
    | .error e => .failure e
  | .addInt32 x, .addInt32 y => .addInt32 ((x + y) % 2 ^ 32)
  | .addUInt64 x, .addUInt64 y => .addUInt64 ((x + y) % 2 ^ 64)
  | .addUInt128 x, .addUInt128 y => .addUInt128 ((x + y) % 2 ^ 128)
  | .addUInt256 x, .addUInt256 y => .addUInt256 ((x + y) % 2 ^ 256)
  | .addUInt512 x, .addUInt512 y => .addUInt512 ((x + y) % 2 ^ 512)
  | .addKeys m1, .addKeys m2 => .addKeys (mergeNamed m1 m2)
  | a, b => .failure (.typeMismatch { expected := transformKind a, found := transformKind b })

/-- Access-kind tag per key. Modelled from the spec, section 3. -/
inductive Op
  | read
  | write
  | add
  | noOp
deriving DecidableEq, Repr

/-- Op lattice join (the `Add` impl on `Op`): NoOp < Read < (Write,
Add), Write dominates. Modelled from the spec, section 3. -/
def opAdd : Op → Op → Op
  | .noOp, b => b
  | a, .noOp => a
  | .write, _ => .write
  | _, .write => .write
  | .add, _ => .add
  | .read, b => b

/-- The auditable output of an execution: the ops and transforms maps
(`engine_state::execution_effect::ExecutionEffect`). Modelled from the
spec, section 3. -/
structure ExecutionEffect where
  ops : List (Key × Op)
  transforms : List (Key × Transform)
deriving DecidableEq, Repr

/-! ### TrackingCopyCache

Embeds `tracking_copy/mod.rs`, lines 98-150: LRU-evictable read cache,
never-evicted mutation cache, byte budget. The linked-hash-map is
modelled as an insertion-ordered association list whose back is the
most recently used entry. The meter is an arbitrary function
`Key → StoredValue → Nat`. -/

/-- Cache state: byte budget, running size of the read cache,
insertion-ordered reads, mutations. -/
structure TCCache where
  maxSize : Nat
  currentSize : Nat
  reads : List (Key × StoredValue)
  muts : List (Key × StoredValue)
deriving DecidableEq, Repr

/-- `TrackingCopyCache::new`. -/
def TCCache.new (m : Nat) : TCCache :=
  { maxSize := m, currentSize := 0, reads := [], muts := [] }

/-- The eviction loop of `insert_read`: while over budget, pop the
least-recently-used entry and subtract its measured size; stop when the
cache empties. -/
def evictLoop (meter : Key → StoredValue → Nat) (maxSize : Nat) :
    List (Key × StoredValue) → Nat → List (Key × StoredValue) × Nat
  | [], size => ([], size)
  | e :: rest, size =>
    if size ≤ maxSize then (e :: rest, size)
    else evictLoop meter maxSize rest (size - meter e.1 e.2)

/-- `TrackingCopyCache::insert_read` (`tracking_copy/mod.rs`, lines
122-135): measure, insert at the most-recently-used end (replacing any
previous binding of the key), add the measured size, then evict while
over budget. Note the size of a replaced previous binding is not
subtracted, exactly as in the source. -/
def TCCache.insertRead (meter : Key → StoredValue → Nat) (c : TCCache)
    (k : Key) (v : StoredValue) : TCCache :=
  let elementSize := meter k v
  let reads1 := assocInsert k v c.reads
  let res := evictLoop meter c.maxSize reads1 (c.currentSize + elementSize)
  { c with reads := res.1, currentSize := res.2 }

/-- `TrackingCopyCache::insert_write`: unconditional insert into the
mutation cache; the read cache and the size counter are untouched. -/
def TCCache.insertWrite (c : TCCache) (k : Key) (v : StoredValue) : TCCache :=
  { c with muts := assocInsert k v c.muts }

/-- `TrackingCopyCache::get`: mutations win over reads; a read hit is
refreshed to the most-recently-used position. -/
def TCCache.get (c : TCCache) (k : Key) : Option StoredValue × TCCache :=
  match assocLookup c.muts k with
  | some v => (some v, c)
  | none =>
    match assocLookup c.reads k with
    | some v => (some v, { c with reads := assocInsert k v c.reads })
    | none => (none, c)

/-- Byte serialization of a stored value (one-byte discriminant then
payload). Modelled from the spec, sections 3 and 4.1; used by
`read_value` staging and by the heap meter. -/
def svToBytes : StoredValue → List Nat
  | .clValue cv => 0 :: (u32le cv.bytes.length ++ cv.bytes ++ clTypeEnc cv.clType)
  | .account a =>
    1 :: (u32le a.namedKeys.length ++
      a.namedKeys.foldr (fun e acc => strEnc e.1 ++ keyEnc e.2 ++ acc) [])
  | .contract c =>
    2 :: (u32le c.namedKeys.length ++
      c.namedKeys.foldr (fun e acc => strEnc e.1 ++ keyEnc e.2 ++ acc) [])
  | .contractPackage => [3]
  | .contractWasm => [4]

/-- The default heap-size meter. Modelled from the spec, section 4.3:
a deterministic approximation of the in-memory footprint. -/
def heapSize (k : Key) (v : StoredValue) : Nat :=
  (keyEnc k).length + (svToBytes v).length

/-! ### TrackingCopy

Embeds `tracking_copy/mod.rs`, lines 152-405. The `StateReader` is a
finite snapshot modelled as an association list; reader errors
(`R::Error`, propagated unchanged by every operation) are elided. -/

/-- The staged mutable overlay: immutable reader snapshot, cache, ops
and transforms accumulators. -/
structure TrackingCopy where
  reader : List (Key × StoredValue)
  cache : TCCache
  ops : List (Key × Op)
  fns : List (Key × Transform)
deriving DecidableEq, Repr

/-- `TrackingCopy::new`: 16 KiB budget, heap-size meter. -/
def TrackingCopy.new (reader : List (Key × StoredValue)) : TrackingCopy :=
  { reader := reader, cache := TCCache.new (1024 * 16), ops := [], fns := [] }

/-- `TrackingCopy::get`: cache first; on a reader hit populate the read
cache; `none` on a miss. Does not touch ops or transforms. -/
def TrackingCopy.get (tc : TrackingCopy) (k : Key) : Option StoredValue × TrackingCopy :=
  match tc.cache.get k with
  | (some v, cache2) => (some v, { tc with cache := cache2 })
  | (none, cache2) =>
    match assocLookup tc.reader k with
    | some v => (some v, { tc with cache := cache2.insertRead heapSize k v })
    | none => (none, { tc with cache := cache2 })

/-- `TrackingCopy::read`: normalize, `get`, and on a hit record
`Op::Read` and `Transform::Identity`. -/
def TrackingCopy.read (tc : TrackingCopy) (k : Key) : Option StoredValue × TrackingCopy :=
  let nk := k.normalize
  match tc.get nk with
  | (some v, tc2) =>
    (some v,
      { tc2 with
        ops := insertAdd opAdd tc2.ops nk .read
        fns := insertAdd Transform.add tc2.fns nk .identity })
  | (none, tc2) => (none, tc2)

/-- `TrackingCopy::write`: normalize, insert into the mutation cache,
record `Op::Write` and `Transform::Write(v)`. -/
def TrackingCopy.write (tc : TrackingCopy) (k : Key) (v : StoredValue) : TrackingCopy :=
  let nk := k.normalize
  { tc with
    cache := tc.cache.insertWrite nk v
    ops := insertAdd opAdd tc.ops nk .write
    fns := insertAdd Transform.add tc.fns nk (.write v) }

/-- Result of `TrackingCopy::add` (`tracking_copy/mod.rs`,
`enum AddResult`). -/
inductive AddResult
  | success
  | keyNotFound (k : Key)
  | typeMismatch (tm : TypeMismatch)
  | serialization (e : BErr)
deriving DecidableEq, Repr

/-- `impl From<CLValueError> for AddResult`: a type mismatch is
rendered with the Debug strings of the two CLTypes. -/
def addResultOfCLValueError : CLValueError → AddResult
  | .serialization e => .serialization e
  | .type tm =>
    .typeMismatch { expected := clTypeName tm.expected, found := clTypeName tm.found }

/-- The expected-types descriptor `add` reports for unsupported values
(`tracking_copy/mod.rs`, line 270). -/
def expectedAddStr : String := "I32, U64, U128, U256, U512 or (String, Key) tuple"

/-- The final step of `add` (`tracking_copy/mod.rs`, lines 314-325):
apply the transform to the current value; on success write the result
into the mutation cache and record `Op::Add` and the transform; a
transform type mismatch or serialization failure is surfaced with the
state otherwise unchanged. -/
def addApplyStep (tc : TrackingCopy) (nk : Key) (tr : Transform) (cur : StoredValue) :
    AddResult × TrackingCopy :=
  match tr.apply cur with
  | .ok nv =>
    (.success,
      { tc with
        cache := tc.cache.insertWrite nk nv
        ops := insertAdd opAdd tc.ops nk .add
        fns := insertAdd Transform.add tc.fns nk tr })
  | .error (.typeMismatch tm) => (.typeMismatch tm, tc)
  | .error (.serialization e) => (.serialization e, tc)

/-- `TrackingCopy::add` (`tracking_copy/mod.rs`, lines 255-326):
normalize; missing current value is `KeyNotFound`; dispatch on the
CLType of the added CLValue to the matching add transform (or a
one-entry `AddKeys` for the named-key tuple); anything else is the
fixed `TypeMismatch`; then apply and record. -/
def TrackingCopy.add (tc : TrackingCopy) (k : Key) (v : StoredValue) :
    AddResult × TrackingCopy :=
  let nk := k.normalize
  match tc.get nk with
  | (none, tc2) => (.keyNotFound nk, tc2)
  | (some cur, tc2) =>
    match v with
    | .clValue cv =>
      if cv.clType = .i32 then
        match intoT i32Inst cv with
        | .ok n => addApplyStep tc2 nk (.addInt32 n) cur
        | .error e => (addResultOfCLValueError e, tc2)
      else if cv.clType = .u64 then
        match intoT u64Inst cv with
        | .ok n => addApplyStep tc2 nk (.addUInt64 n) cur
        | .error e => (addResultOfCLValueError e, tc2)
      else if cv.clType = .u128 then
        match intoT u128Inst cv with
        | .ok n => addApplyStep tc2 nk (.addUInt128 n) cur
        | .error e => (addResultOfCLValueError e, tc2)
      else if cv.clType = .u256 then
        match intoT u256Inst cv with
        | .ok n => addApplyStep tc2 nk (.addUInt256 n) cur
        | .error e => (addResultOfCLValueError e, tc2)
      else if cv.clType = .u512 then
        match intoT u512Inst cv with
        | .ok n => addApplyStep tc2 nk (.addUInt512 n) cur
        | .error e => (addResultOfCLValueError e, tc2)
      else if cv.clType = namedKeyType then
        match intoT namedKeyInst cv with
        | .ok nameAndKey => addApplyStep tc2 nk (.addKeys [nameAndKey]) cur
        | .error e => (addResultOfCLValueError e, tc2)
      else
        (.typeMismatch { expected := expectedAddStr, found := typeName v }, tc2)
    | _ => (.typeMismatch { expected := expectedAddStr, found := typeName v }, tc2)

/-- `TrackingCopy::effect`: clone the accumulated ops and transforms. -/
def TrackingCopy.effect (tc : TrackingCopy) : ExecutionEffect :=
  { ops := tc.ops, transforms := tc.fns }

/-! ### Query

Embeds `TrackingCopy::query` (`tracking_copy/mod.rs`, lines 339-404)
and the `Query` state struct (lines 38-93). The query walks ONLY the
immutable reader — it never consults the cache. The Rust `format!`
message texts (which interpolate Debug renderings and the traversed
path) are approximated by their fixed prefixes. -/

/-- Result of a query (`enum TrackingCopyQueryResult`); the
circular-reference message is elided. -/
inductive QueryResult
  | success (v : StoredValue)
  | valueNotFound (msgPre : String)
  | circularReference
deriving DecidableEq, Repr

/-- The in-progress query state (`struct Query`). -/
structure QueryState where
  baseKey : Key
  visitedKeys : List Key
  currentKey : Key
  unvisitedNames : List RustStr
  visitedNames : List RustStr
deriving DecidableEq, Repr

/-- `Query::new`: the current key starts at the normalized base. -/
def QueryState.init (base : Key) (path : List RustStr) : QueryState :=
  { baseKey := base
    visitedKeys := []
    currentKey := base.normalize
    unvisitedNames := path
    visitedNames := [] }

/-- The query loop, with explicit fuel (one unit per iteration; any
fuel exceeding the number of reader keys suffices, see the termination
theorem). Each iteration: mark the current key visited (revisiting is
a circular reference), read it from the reader (a miss is
`ValueNotFound`), succeed when the path is exhausted, otherwise
traverse an Account's or Contract's named key (consuming one path
name) or follow a CLValue of type Key (consuming none). -/
def queryLoop (reader : List (Key × StoredValue)) : QueryState → Nat → Option QueryResult
  | _, 0 => none
  | q, fuel + 1 =>
    if q.currentKey ∈ q.visitedKeys then some .circularReference
    else
      let q1 : QueryState := { q with visitedKeys := q.currentKey :: q.visitedKeys }
      match assocLookup reader q1.currentKey with
      | none => some (.valueNotFound "Failed to find base key")
      | some sv =>
        match q1.unvisitedNames with
        | [] => some (.success sv)
        | name :: restNames =>
          match sv with
          | .account a =>
            match assocLookup a.namedKeys name with
            | some key =>
              queryLoop reader
                { q1 with
                  currentKey := key.normalize
                  unvisitedNames := restNames
                  visitedNames := q1.visitedNames ++ [name] } fuel
            | none => some (.valueNotFound "Name not found in Account")
          | .contract c =>
            match assocLookup c.namedKeys name with
            | some key =>
              queryLoop reader
                { q1 with
                  currentKey := key.normalize
                  unvisitedNames := restNames
                  visitedNames := q1.visitedNames ++ [name] } fuel
            | none => some (.valueNotFound "Name not found in Contract")
          | .clValue cv =>
            if cv.clType = .key then
              match intoT keyInst cv with
              | .ok key => queryLoop reader { q1 with currentKey := key.normalize } fuel
              | .error _ => some (.valueNotFound "Failed to parse CLValue as Key")
            else
              some (.valueNotFound "Query cannot continue: value is not traversable")
          | .contractPackage => some (.valueNotFound "ContractPackage value found.")
          | .contractWasm => some (.valueNotFound "ContractWasm value found.")

/-- `TrackingCopy::query`: path-walk the immutable reader, bypassing
the cache. The fuel `reader.length + 1` always suffices (termination
theorem below). -/
def TrackingCopy.query (tc : TrackingCopy) (base : Key) (path : List RustStr) :
    Option QueryResult :=
  queryLoop tc.reader (QueryState.init base path) (tc.reader.length + 1)

/-! ### Host runtime and executor

Embeds `engine/src/execution.rs`. The wasm interpreter and linear
memory are external (spec section 6); host calls are embedded from the
point where their arguments have been decoded from guest memory, and
the interpreter's verdict on the guest's `call` export is an explicit
`InvokeResult` parameter. The older `storage::TrackingCopy` trait used
by this crate is not under `src/`; its state operations are the
tracking copy of section 4.4 embedded above, with error payloads
collapsed into the `storage` kind. -/

/-- `enum Error` of `engine/src/execution.rs` (lines 18-30). The
payloads of interpreter/storage/parity-wasm errors are opaque. -/
inductive ExecError
  | interpreter
  | storage
  | bytesRepr (e : BErr)
  | valueTypeSizeMismatch (valueType : Nat) (valueSize : Nat)
  | forgedReference (k : Key)
  | noImportedMemory
  | argIndexOutOfBounds (i : Nat)
  | functionNotFound (name : String)
  | parityWasm
  | ret
deriving DecidableEq, Repr

/-- `struct Runtime` (`execution.rs`, lines 64-72): arguments, known
URefs, tracking-copy state, result and host buffers. The wasmi
`MemoryRef` and the parity module are external and elided. -/
structure Runtime where
  args : List (List Nat)
  knownUrefs : List Key
  state : TrackingCopy
  result : List Nat
  hostBuf : List Nat
deriving DecidableEq, Repr

/-- `Runtime::write` (`execution.rs`, lines 220-229) after the key and
value have been decoded from guest memory: delegate to the state's
`write`. There is NO check of `known_urefs` — the function cannot
fail with `ForgedReference` (or at all). -/
def Runtime.write (rt : Runtime) (k : Key) (v : StoredValue) : Except ExecError Runtime :=
  .ok { rt with state := rt.state.write k v }

/-- `Runtime::read_value` (`execution.rs`, lines 247-254) after the key
has been decoded: read through the state, stage the serialized value in
`host_buf`, return its length. A missing key is a storage error; again
there is no `known_urefs` check. -/
def Runtime.readValue (rt : Runtime) (k : Key) : Except ExecError (Nat × Runtime) :=
  match rt.state.read k with
  | (some v, st2) =>
    .ok ((svToBytes v).length, { rt with state := st2, hostBuf := svToBytes v })
  | (none, _) => .error .storage

/-- `Runtime::add` (`execution.rs`, lines 231-240) after decoding:
delegate to the state's `add`; failures surface as storage errors;
no `known_urefs` check. -/
def Runtime.add (rt : Runtime) (k : Key) (v : StoredValue) : Except ExecError Runtime :=
  match rt.state.add k v with
  | (.success, st2) => .ok { rt with state := st2 }
  | (_, _) => .error .storage

/-- `Runtime::load_arg` (`execution.rs`, lines 148-155): stage the i-th
argument in `host_buf`, or trap with `ArgIndexOutOfBounds`. -/
def Runtime.loadArg (rt : Runtime) (i : Nat) : Except ExecError (Nat × Runtime) :=
  if h : i < rt.args.length then
    .ok ((rt.args.get ⟨i, h⟩).length, { rt with hostBuf := rt.args.get ⟨i, h⟩ })
  else
    .error (.argIndexOutOfBounds i)

/-- `Runtime::get_uref` (`execution.rs`, lines 158-166): serialize the
i-th entry of the known-URefs iteration. The source calls
`.iter().nth(i).unwrap()`; an out-of-range index panics, which is
modelled as `none` — note the return type has no error channel at all.
-/
def Runtime.getUref (rt : Runtime) (i : Nat) : Option (List Nat) :=
  (rt.knownUrefs.get? i).map keyEnc

/-- Verdict of the interpreter on invoking the `call` export: normal
return, a trap carrying a host `Error`, or an interpreter-level trap.
Modelled from the spec, section 6 (the `Interpreter` interface). -/
inductive InvokeResult
  | success
  | hostTrap (e : ExecError)
  | interpreterTrap
deriving DecidableEq, Repr

/-- The tail of `sub_call` (`execution.rs`, lines 564-579): a normal
return yields the child's `result`; a trap whose host error is `Ret`
also yields the child's `result`; any other trap becomes an
interpreter error. -/
def subCallResult (r : InvokeResult) (childResult : List Nat) : Except ExecError (List Nat) :=
  match r with
  | .success => .ok childResult
  | .hostTrap e => if e = .ret then .ok childResult else .error .interpreter
  | .interpreterTrap => .error .interpreter

/-- The tail of `exec` (`execution.rs`, lines 603-605): the result of
`invoke_export` is propagated with `?` — EVERY trap, including a `Ret`
host trap, converts to an error; only a normal return reaches
`Ok(runtime.effect())`. -/
def execResult (r : InvokeResult) (finalState : TrackingCopy) :
    Except ExecError ExecutionEffect :=
  match r with
  | .success => .ok finalState.effect
  | .hostTrap _ => .error .interpreter
  | .interpreterTrap => .error .interpreter

/-- Sample empty state and runtime used by concrete evaluations. -/
def tcEmpty : TrackingCopy := TrackingCopy.new []

/-- A runtime with no known URefs over the empty state. -/
def rtEmpty : Runtime :=
  { args := [], knownUrefs := [], state := tcEmpty, result := [], hostBuf := [] }

/-- A URef key that is in no known-URefs set. -/
def urefKeySample : Key := .uref 0 (some 1)

/-- A sample stored value. -/
def valSample : StoredValue := .clValue (fromT i32Inst 7)

/-! ### C5 — CLValue wire form -/

/-- A sample CLValue (an i32 with payload `7`). -/
def cvSample : CLValue := { clType := .i32, bytes := [7, 0, 0, 0] }

/-! ### C7 — the LRU size bound -/

/-- A cache operation: the three entry points of `TrackingCopyCache`. -/
inductive CacheOp
  | insertRead (k : Key) (v : StoredValue)
  | insertWrite (k : Key) (v : StoredValue)
  | getOp (k : Key)

/-- Runs one cache operation (`get` for its state effect). -/
def runCacheOp (meter : Key → StoredValue → Nat) (c : TCCache) : CacheOp → TCCache
  | .insertRead k v => c.insertRead meter k v
  | .insertWrite k v => c.insertWrite k v
  | .getOp k => (c.get k).2

/-- Runs a sequence of cache operations from the given state. -/
def runCacheOps (meter : Key → StoredValue → Nat) (c : TCCache) (ops : List CacheOp) :
    TCCache :=
  ops.foldl (runCacheOp meter) c

/-- The largest single element size inserted by `insert_read` in the
sequence, as measured by the meter. -/
def maxElemSize (meter : Key → StoredValue → Nat) : List CacheOp → Nat
  | [] => 0
  | .insertRead k v :: rest => max (meter k v) (maxElemSize meter rest)
  | _ :: rest => maxElemSize meter rest

/-- Total measured size of a read-cache association list. -/
def sumMeter (meter : Key → StoredValue → Nat) (l : List (Key × StoredValue)) : Nat :=
  l.foldr (fun e acc => meter e.1 e.2 + acc) 0

/-- The cache invariant: the size counter dominates the measured
content of the read cache and stays within the budget. -/
def cacheInv (meter : Key → StoredValue → Nat) (c : TCCache) : Prop :=
  sumMeter meter c.reads ≤ c.currentSize ∧ c.currentSize ≤ c.maxSize

/-! ### C9 — query termination -/

/-- Number of reader keys not yet visited: the decreasing measure of
the query loop. -/
def unvisitedCount (reader : List (Key × StoredValue)) (vis : List Key) : Nat :=
  ((reader.map Prod.fst).filter (fun k => decide (k ∉ vis))).length

/-- A query state whose current key is already visited. -/
def qStateCirc : QueryState :=
  { baseKey := Key.hash 1
    visitedKeys := [Key.hash 1]
    currentKey := Key.hash 1
    unvisitedNames := []
    visitedNames := [] }

/-- Is the added value a CLValue of one of the six types `add`
dispatches on? -/
def isSupportedAdd : StoredValue → Bool
  | .clValue cv =>
    decide (cv.clType = .i32) || decide (cv.clType = .u64) || decide (cv.clType = .u128) ||
      decide (cv.clType = .u256) || decide (cv.clType = .u512) ||
      decide (cv.clType = namedKeyType)
  | _ => false

/-- The key used by the C3 witness. -/
def keyC3 : Key := Key.hash 5

/-- The current value under `keyC3`. -/
def curC3 : StoredValue := .clValue (fromT u64Inst 10)

/-- A tracking copy whose reader holds a U64 under `keyC3`. -/
def tcC3 : TrackingCopy := TrackingCopy.new [(keyC3, curC3)]

/-- The state after `get` has populated the read cache. -/
def tc2C3 : TrackingCopy := (tcC3.get keyC3.normalize).2

theorem readN_append (xs rest : List Nat) : readN xs.length (xs ++ rest) = .ok (xs, rest) := by
  induction xs with
  | nil => rfl
  | cons b bs ih => simp [readN, ih]

theorem leBytes_length (n x : Nat) : (leBytes n x).length = n := by
  induction n generalizing x with
  | zero => rfl
  | succ n ih => simp [leBytes, ih]

theorem leVal_leBytes (n x : Nat) (h : x < 256 ^ n) : leVal (leBytes n x) = x := by
  induction n generalizing x with
  | zero => simp [leBytes, leVal]; omega
  | succ n ih =>
    have hdiv : x / 256 < 256 ^ n := by
      apply Nat.div_lt_of_lt_mul
      have hp : 256 ^ (n + 1) = 256 ^ n * 256 := by ring
      omega
    simp [leBytes, leVal, ih (x / 256) hdiv]
    omega

theorem fixedDec_leBytes (n x : Nat) (rest : List Nat) (h : x < 256 ^ n) :
    fixedDec n (leBytes n x ++ rest) = .ok (x, rest) := by
  have hr : readN n (leBytes n x ++ rest) = .ok (leBytes n x, rest) := by
    have := readN_append (leBytes n x) rest
    rwa [leBytes_length] at this
  simp [fixedDec, hr, leVal_leBytes n x h]

theorem u32dec_u32le (x : Nat) (rest : List Nat) (h : x < 2 ^ 32) :
    u32dec (u32le x ++ rest) = .ok (x, rest) := by
  have : x < 256 ^ 4 := by norm_num at *; omega
  exact fixedDec_leBytes 4 x rest this

theorem leVal_minimalLE (x : Nat) : leVal (minimalLE x) = x := by
  induction x using Nat.strong_induction_on with
  | _ x ih =>
    match x with
    | 0 => simp [minimalLE, leVal]
    | n + 1 =>
      have hlt : (n + 1) / 256 < n + 1 := Nat.div_lt_self (Nat.succ_pos n) (by omega)
      rw [minimalLE]
      simp [leVal, ih ((n + 1) / 256) hlt]
      omega

theorem bigIntDec_bigIntEnc (x : Nat) (rest : List Nat) :
    bigIntDec (bigIntEnc x ++ rest) = .ok (x, rest) := by
  simp [bigIntEnc, bigIntDec, readN_append, leVal_minimalLE]

theorem strDec_strEnc (s : RustStr) (rest : List Nat) (h : s.length < 2 ^ 32) :
    strDec (strEnc s ++ rest) = .ok (s, rest) := by
  simp only [strEnc, strDec, List.append_assoc, u32dec_u32le s.length (s ++ rest) h]
  exact readN_append s rest

theorem keyDec_keyEnc (k : Key) (rest : List Nat) (h : k.wfB = true) :
    keyDec (keyEnc k ++ rest) = .ok (k, rest) := by
  have h256 : (256 : Nat) ^ 32 = 2 ^ 256 := by norm_num
  cases k with
  | account a =>
    simp only [Key.wfB, decide_eq_true_eq] at h
    simp [keyEnc, keyDec, fixedDec_leBytes 32 a rest (by omega)]
  | hash a =>
    simp only [Key.wfB, decide_eq_true_eq] at h
    simp [keyEnc, keyDec, fixedDec_leBytes 32 a rest (by omega)]
  | uref a rights =>
    cases rights with
    | none =>
      simp only [Key.wfB, decide_eq_true_eq] at h
      simp [keyEnc, keyDec, fixedDec_leBytes 32 a (0 :: rest) (by omega)]
    | some r =>
      simp only [Key.wfB, Bool.and_eq_true, decide_eq_true_eq] at h
      rw [show (keyEnc (.uref a (some r))) = 2 :: (leBytes 32 a ++ [1, r]) by
        simp [keyEnc, Nat.mod_eq_of_lt h.2]]
      simp [keyDec, List.append_assoc, fixedDec_leBytes 32 a (1 :: r :: rest) (by omega)]
  | loc hsh =>
    simp only [Key.wfB, decide_eq_true_eq] at h
    simp [keyEnc, keyDec, fixedDec_leBytes 32 hsh rest (by omega)]

theorem clType_depth_pos (t : CLType) : 0 < t.depth := by
  cases t <;> simp [CLType.depth]

theorem clTypeDecGo_enc (t : CLType) :
    ∀ fuel rest, t.depth ≤ fuel → t.wfB = true →
      clTypeDecGo fuel (clTypeEnc t ++ rest) = .ok (t, rest) := by
  induction t with
  | option t1 ih =>
    intro fuel rest hf hw
    cases fuel with
    | zero => simp [CLType.depth] at hf
    | succ f =>
      have h1 : t1.depth ≤ f := by simp [CLType.depth] at hf; omega
      simp only [CLType.wfB] at hw
      simp [clTypeEnc, clTypeDecGo, ih f rest h1 hw]
  | list t1 ih =>
    intro fuel rest hf hw
    cases fuel with
    | zero => simp [CLType.depth] at hf
    | succ f =>
      have h1 : t1.depth ≤ f := by simp [CLType.depth] at hf; omega
      simp only [CLType.wfB] at hw
      simp [clTypeEnc, clTypeDecGo, ih f rest h1 hw]
  | tuple1 t1 ih =>
    intro fuel rest hf hw
    cases fuel with
    | zero => simp [CLType.depth] at hf
    | succ f =>
      have h1 : t1.depth ≤ f := by simp [CLType.depth] at hf; omega
      simp only [CLType.wfB] at hw
      simp [clTypeEnc, clTypeDecGo, ih f rest h1 hw]
  | fixedList t1 n ih =>
    intro fuel rest hf hw
    cases fuel with
    | zero => simp [CLType.depth] at hf
    | succ f =>
      have h1 : t1.depth ≤ f := by simp [CLType.depth] at hf; omega
      simp only [CLType.wfB, Bool.and_eq_true, decide_eq_true_eq] at hw
      simp [clTypeEnc, clTypeDecGo, List.append_assoc,
        ih f (u32le n ++ rest) h1 hw.1, u32dec_u32le n rest hw.2]
  | result a b iha ihb =>
    intro fuel rest hf hw
    cases fuel with
    | zero => simp [CLType.depth] at hf
    | succ f =>
      have ha : a.depth ≤ f := by simp [CLType.depth] at hf; omega
      have hb : b.depth ≤ f := by simp [CLType.depth] at hf; omega
      simp only [CLType.wfB, Bool.and_eq_true] at hw
      simp [clTypeEnc, clTypeDecGo, List.append_assoc,
        iha f (clTypeEnc b ++ rest) ha hw.1, ihb f rest hb hw.2]
  | map a b iha ihb =>
    intro fuel rest hf hw
    cases fuel with
    | zero => simp [CLType.depth] at hf
    | succ f =>
      have ha : a.depth ≤ f := by simp [CLType.depth] at hf; omega
      have hb : b.depth ≤ f := by simp [CLType.depth] at hf; omega
      simp only [CLType.wfB, Bool.and_eq_true] at hw
      simp [clTypeEnc, clTypeDecGo, List.append_assoc,
        iha f (clTypeEnc b ++ rest) ha hw.1, ihb f rest hb hw.2]
  | tuple2 a b iha ihb =>
    intro fuel rest hf hw
    cases fuel with
    | zero => simp [CLType.depth] at hf
    | succ f =>
      have ha : a.depth ≤ f := by simp [CLType.depth] at hf; omega
      have hb : b.depth ≤ f := by simp [CLType.depth] at hf; omega
      simp only [CLType.wfB, Bool.and_eq_true] at hw
      simp [clTypeEnc, clTypeDecGo, List.append_assoc,
        iha f (clTypeEnc b ++ rest) ha hw.1, ihb f rest hb hw.2]
  | tuple3 a b c iha ihb ihc =>
    intro fuel rest hf hw
    cases fuel with
    | zero => simp [CLType.depth] at hf
    | succ f =>
      have ha : a.depth ≤ f := by simp [CLType.depth] at hf; omega
      have hb : b.depth ≤ f := by simp [CLType.depth] at hf; omega
      have hc : c.depth ≤ f := by simp [CLType.depth] at hf; omega
      simp only [CLType.wfB, Bool.and_eq_true] at hw
      simp [clTypeEnc, clTypeDecGo, List.append_assoc,
        iha f (clTypeEnc b ++ (clTypeEnc c ++ rest)) ha hw.1.1,
        ihb f (clTypeEnc c ++ rest) hb hw.1.2, ihc f rest hc hw.2]
  | bool =>
    intro fuel rest hf _
    cases fuel with
    | zero => simp [CLType.depth] at hf
    | succ f => simp [clTypeEnc, clTypeDecGo]
  | i32 =>
    intro fuel rest hf _
    cases fuel with
    | zero => simp [CLType.depth] at hf
    | succ f => simp [clTypeEnc, clTypeDecGo]
  | i64 =>
    intro fuel rest hf _
    cases fuel with
    | zero => simp [CLType.depth] at hf
    | succ f => simp [clTypeEnc, clTypeDecGo]
  | u8 =>
    intro fuel rest hf _
    cases fuel with
    | zero => simp [CLType.depth] at hf
    | succ f => simp [clTypeEnc, clTypeDecGo]
  | u32 =>
    intro fuel rest hf _
    cases fuel with
    | zero => simp [CLType.depth] at hf
    | succ f => simp [clTypeEnc, clTypeDecGo]
  | u64 =>
    intro fuel rest hf _
    cases fuel with
    | zero => simp [CLType.depth] at hf
    | succ f => simp [clTypeEnc, clTypeDecGo]
  | u128 =>
    intro fuel rest hf _
    cases fuel with
    | zero => simp [CLType.depth] at hf
    | succ f => simp [clTypeEnc, clTypeDecGo]
  | u256 =>
    intro fuel rest hf _
    cases fuel with
    | zero => simp [CLType.depth] at hf
    | succ f => simp [clTypeEnc, clTypeDecGo]
  | u512 =>
    intro fuel rest hf _
    cases fuel with
    | zero => simp [CLType.depth] at hf
    | succ f => simp [clTypeEnc, clTypeDecGo]
  | unit =>
    intro fuel rest hf _
    cases fuel with
    | zero => simp [CLType.depth] at hf
    | succ f => simp [clTypeEnc, clTypeDecGo]
  | string =>
    intro fuel rest hf _
    cases fuel with
    | zero => simp [CLType.depth] at hf
    | succ f => simp [clTypeEnc, clTypeDecGo]
  | key =>
    intro fuel rest hf _
    cases fuel with
    | zero => simp [CLType.depth] at hf
    | succ f => simp [clTypeEnc, clTypeDecGo]
  | uref =>
    intro fuel rest hf _
    cases fuel with
    | zero => simp [CLType.depth] at hf
    | succ f => simp [clTypeEnc, clTypeDecGo]
  | publicKey =>
    intro fuel rest hf _
    cases fuel with
    | zero => simp [CLType.depth] at hf
    | succ f => simp [clTypeEnc, clTypeDecGo]
  | any =>
    intro fuel rest hf _
    cases fuel with
    | zero => simp [CLType.depth] at hf
    | succ f => simp [clTypeEnc, clTypeDecGo]

theorem clTypeEnc_length_pos (t : CLType) : 0 < (clTypeEnc t).length := by
  cases t <;> simp [clTypeEnc]

theorem clType_depth_le_encLength (t : CLType) : t.depth ≤ (clTypeEnc t).length := by
  induction t <;> simp [CLType.depth, clTypeEnc] <;> omega

theorem intoT_fromT_i32 (x : Nat) (h : x < 2 ^ 32) :
    intoT i32Inst (fromT i32Inst x) = .ok x := by
  have hb : x < 256 ^ 4 := by norm_num at *; omega
  have := fixedDec_leBytes 4 x [] hb
  simp only [List.append_nil] at this
  simp [intoT, fromT, i32Inst, this]

theorem intoT_fromT_u64 (x : Nat) (h : x < 2 ^ 64) :
    intoT u64Inst (fromT u64Inst x) = .ok x := by
  have hb : x < 256 ^ 8 := by norm_num at *; omega
  have := fixedDec_leBytes 8 x [] hb
  simp only [List.append_nil] at this
  simp [intoT, fromT, u64Inst, this]

theorem bigIntDec_bigIntEnc_nil (x : Nat) : bigIntDec (bigIntEnc x) = .ok (x, []) := by
  have := bigIntDec_bigIntEnc x []
  simpa using this

theorem intoT_fromT_u128 (x : Nat) :
    intoT u128Inst (fromT u128Inst x) = .ok x := by
  simp [intoT, fromT, u128Inst, bigIntDec_bigIntEnc_nil]

theorem intoT_fromT_u256 (x : Nat) :
    intoT u256Inst (fromT u256Inst x) = .ok x := by
  simp [intoT, fromT, u256Inst, bigIntDec_bigIntEnc_nil]

theorem intoT_fromT_u512 (x : Nat) :
    intoT u512Inst (fromT u512Inst x) = .ok x := by
  simp [intoT, fromT, u512Inst, bigIntDec_bigIntEnc_nil]

theorem intoT_fromT_key (k : Key) (h : k.wfB = true) :
    intoT keyInst (fromT keyInst k) = .ok k := by
  have := keyDec_keyEnc k [] h
  simp only [List.append_nil] at this
  simp [intoT, fromT, keyInst, this]

theorem intoT_fromT_namedKey (s : RustStr) (k : Key)
    (hs : s.length < 2 ^ 32) (hk : k.wfB = true) :
    intoT namedKeyInst (fromT namedKeyInst (s, k)) = .ok (s, k) := by
  have hstr := strDec_strEnc s (keyEnc k) hs
  have hkey := keyDec_keyEnc k [] hk
  simp only [List.append_nil] at hkey
  simp [intoT, fromT, namedKeyInst, namedKeyDec, hstr, hkey]

theorem intoT_fromT_mismatch {α β : Type}
    (instA : CLTypedInst α) (instB : CLTypedInst β) (x : α)
    (h : instA.clType ≠ instB.clType) :
    intoT instB (fromT instA x) =
      .error (.type { expected := instB.clType, found := instA.clType }) := by
  simp [intoT, fromT, h]

theorem clValueFromBytes_wire (cv : CLValue) (h : cv.bytes.length < 2 ^ 32)
    (hw : cv.clType.wfB = true) :
    clValueFromBytes (u32le cv.bytes.length ++ cv.bytes ++ clTypeEnc cv.clType) =
      .ok (cv, []) := by
  have hvec : vecU8FromBytes (u32le cv.bytes.length ++ (cv.bytes ++ clTypeEnc cv.clType)) =
      .ok (cv.bytes, clTypeEnc cv.clType) := by
    simp [vecU8FromBytes, u32dec_u32le cv.bytes.length (cv.bytes ++ clTypeEnc cv.clType) h,
      readN_append]
  have hty : clTypeDecGo (clTypeEnc cv.clType).length (clTypeEnc cv.clType ++ []) =
      .ok (cv.clType, []) :=
    clTypeDecGo_enc cv.clType (clTypeEnc cv.clType).length []
      (clType_depth_le_encLength cv.clType) hw
  simp only [List.append_nil] at hty
  simp [clValueFromBytes, List.append_assoc, hvec, hty]

/-! ### Helper lemmas -/

theorem assocLookup_mem_pair {α β : Type} [DecidableEq α] (l : List (α × β)) (k : α) (v : β)
    (h : assocLookup l k = some v) : (k, v) ∈ l := by
  induction l with
  | nil => simp [assocLookup] at h
  | cons e rest ih =>
    obtain ⟨a, b⟩ := e
    by_cases he : a = k
    · simp [assocLookup, he] at h
      subst he
      subst h
      exact List.mem_cons_self _ _
    · simp only [assocLookup, he, if_neg] at h
      exact List.mem_cons_of_mem _ (ih h)

theorem assocLookup_insert_self {α β : Type} [DecidableEq α] (l : List (α × β)) (k : α) (v : β) :
    assocLookup (assocInsert k v l) k = some v := by
  unfold assocInsert
  induction l with
  | nil => simp [assocErase, assocLookup]
  | cons e rest ih =>
    by_cases he : e.1 = k
    · simpa [assocErase, he] using ih
    · simpa [assocErase, assocLookup, he] using ih

theorem assocErase_no_key {α β : Type} [DecidableEq α] (l : List (α × β)) (k : α) (w : β) :
    (k, w) ∉ assocErase l k := by
  intro hmem
  have := List.of_mem_filter hmem
  simp at this

/-! ### C1 — the forged-reference invariant -/

/-- C1: the claim states that a `read_value`, `write` or `add` host
call whose key is a URef outside `known_refs` traps with
`ForgedReference`. The code performs no such check: at the failing
input (a URef key, empty known-URefs set) `write` succeeds outright,
and `read_value`/`add` fail only with a storage error for the missing
key — `ForgedReference` is declared in `enum Error` but never
constructed anywhere in `execution.rs`. -/
theorem c1_no_forged_reference_check :
    urefKeySample ∉ rtEmpty.knownUrefs ∧
    Runtime.write rtEmpty urefKeySample valSample =
      .ok { rtEmpty with state := rtEmpty.state.write urefKeySample valSample } ∧
    Runtime.readValue rtEmpty urefKeySample = .error .storage ∧
    Runtime.add rtEmpty urefKeySample valSample = .error .storage := by
  refine ⟨by decide, rfl, rfl, rfl⟩

/-! ### C2 — effect harvesting in `exec` and `sub_call` -/

/-- C2 counterexample: the claim states that a `call` export
terminating via the `Ret` trap makes the top-level `exec` return `Ok`
with the accumulated effect. In `exec` the invoke result is propagated
with `?`, so a `Ret` host trap is an error and the effect is
discarded; only `sub_call` special-cases `Ret`. -/
theorem c2_counterexample :
    execResult (.hostTrap .ret) tcEmpty ≠ .ok tcEmpty.effect ∧
    execResult (.hostTrap .ret) tcEmpty = .error .interpreter := by
  constructor
  · intro h
    exact Except.noConfusion h
  · rfl

/-- C2 amended: `exec` returns `Ok` with the tracking copy's effect on
a normal return ONLY; every trap — the `Ret` host trap included — makes
`exec` return an error (the effect is discarded). In `sub_call`, by
contrast, both a normal return and a `Ret` host trap succeed with the
child's result, and every other outcome is an error. -/
theorem c2_exec_effect_only_on_normal_return :
    (∀ st : TrackingCopy, execResult .success st = .ok st.effect) ∧
    (∀ (r : InvokeResult) (st : TrackingCopy), r ≠ .success →
      execResult r st = .error .interpreter) ∧
    (∀ res : List Nat, subCallResult .success res = .ok res) ∧
    (∀ res : List Nat, subCallResult (.hostTrap .ret) res = .ok res) ∧
    (∀ (e : ExecError) (res : List Nat), e ≠ .ret →
      subCallResult (.hostTrap e) res = .error .interpreter) ∧
    (∀ res : List Nat, subCallResult .interpreterTrap res = .error .interpreter) := by
  refine ⟨fun _ => rfl, ?_, fun _ => rfl, fun _ => by simp [subCallResult], ?_, fun _ => rfl⟩
  · intro r st hr
    cases r with
    | success => exact absurd rfl hr
    | hostTrap e => rfl
    | interpreterTrap => rfl
  · intro e res he
    simp [subCallResult, he]

/-- C2 witness: the amended theorem evaluated at concrete inputs. -/
theorem c2_witness :
    execResult (.hostTrap .ret) tcEmpty = .error .interpreter ∧
    subCallResult (.hostTrap .storage) [] = .error .interpreter ∧
    execResult .success tcEmpty = .ok tcEmpty.effect := by
  refine ⟨?_, ?_, ?_⟩
  · exact c2_exec_effect_only_on_normal_return.2.1 (.hostTrap .ret) tcEmpty (by simp)
  · exact c2_exec_effect_only_on_normal_return.2.2.2.2.1 .storage [] (by simp)
  · exact c2_exec_effect_only_on_normal_return.1 tcEmpty

/-! ### C4 — add on a missing key -/

/-- C4: if the key is absent from both caches and from the reader,
`add` returns `KeyNotFound` for the normalized key and leaves the
whole tracking copy — mutation cache, ops and transforms included —
unchanged, so a subsequent `effect()` is unchanged. -/
theorem c4_add_missing_key (tc : TrackingCopy) (k : Key) (v : StoredValue)
    (hmut : assocLookup tc.cache.muts k.normalize = none)
    (hread : assocLookup tc.cache.reads k.normalize = none)
    (hreader : assocLookup tc.reader k.normalize = none) :
    tc.add k v = (.keyNotFound k.normalize, tc) ∧
    ((tc.add k v).2).effect = tc.effect := by
  have hcache : tc.cache.get k.normalize = (none, tc.cache) := by
    simp [TCCache.get, hmut, hread]
  have hget : tc.get k.normalize = (none, tc) := by
    simp [TrackingCopy.get, hcache, hreader]
  have hadd : tc.add k v = (.keyNotFound k.normalize, tc) := by
    simp [TrackingCopy.add, hget]
  exact ⟨hadd, by rw [hadd]⟩

/-- C4 witness: the empty tracking copy at a concrete key. -/
theorem c4_witness :
    tcEmpty.add (Key.hash 5) valSample = (.keyNotFound (Key.hash 5), tcEmpty) ∧
    ((tcEmpty.add (Key.hash 5) valSample).2).effect = tcEmpty.effect := by
  have h := c4_add_missing_key tcEmpty (Key.hash 5) valSample rfl rfl rfl
  simpa using h

/-! ### C6 — CLValue extraction -/

/-- C6: `from_t(x).into_t::<T>()` recovers `x` for every embedded
CLTyped instance (its value bounds made explicit), and for any two
instances with different CLTypes the extraction fails with a type
error carrying `expected` the target's type and `found` the source's
type. -/
theorem c6_clvalue_extraction :
    (∀ x : Nat, x < 2 ^ 32 → intoT i32Inst (fromT i32Inst x) = .ok x) ∧
    (∀ x : Nat, x < 2 ^ 64 → intoT u64Inst (fromT u64Inst x) = .ok x) ∧
    (∀ x : Nat, x < 2 ^ 128 → intoT u128Inst (fromT u128Inst x) = .ok x) ∧
    (∀ x : Nat, x < 2 ^ 256 → intoT u256Inst (fromT u256Inst x) = .ok x) ∧
    (∀ x : Nat, x < 2 ^ 512 → intoT u512Inst (fromT u512Inst x) = .ok x) ∧
    (∀ (s : RustStr) (k : Key), s.length < 2 ^ 32 → k.wfB = true →
      intoT namedKeyInst (fromT namedKeyInst (s, k)) = .ok (s, k)) ∧
    (∀ (α β : Type) (instA : CLTypedInst α) (instB : CLTypedInst β) (x : α),
      instA.clType ≠ instB.clType →
      intoT instB (fromT instA x) =
        .error (.type { expected := instB.clType, found := instA.clType })) := by
  refine ⟨intoT_fromT_i32, intoT_fromT_u64, fun x _ => intoT_fromT_u128 x,
    fun x _ => intoT_fromT_u256 x, fun x _ => intoT_fromT_u512 x,
    intoT_fromT_namedKey, fun _ _ instA instB x h => intoT_fromT_mismatch instA instB x h⟩

/-- C6 witness: the extraction law evaluated at concrete values, one
per instance, and one concrete cross-type mismatch. -/
theorem c6_witness :
    intoT i32Inst (fromT i32Inst 7) = .ok 7 ∧
    intoT u64Inst (fromT u64Inst 9) = .ok 9 ∧
    intoT u128Inst (fromT u128Inst 300) = .ok 300 ∧
    intoT u256Inst (fromT u256Inst 70000) = .ok 70000 ∧
    intoT u512Inst (fromT u512Inst 5) = .ok 5 ∧
    intoT namedKeyInst (fromT namedKeyInst ([97, 98], Key.hash 5)) = .ok ([97, 98], Key.hash 5) ∧
    intoT u64Inst (fromT i32Inst 1) =
      .error (.type { expected := CLType.u64, found := CLType.i32 }) := by
  refine ⟨c6_clvalue_extraction.1 7 (by norm_num),
    c6_clvalue_extraction.2.1 9 (by norm_num),
    c6_clvalue_extraction.2.2.1 300 (by norm_num),
    c6_clvalue_extraction.2.2.2.1 70000 (by norm_num),
    c6_clvalue_extraction.2.2.2.2.1 5 (by norm_num),
    c6_clvalue_extraction.2.2.2.2.2.1 [97, 98] (Key.hash 5) (by norm_num) (by decide),
    c6_clvalue_extraction.2.2.2.2.2.2 Nat Nat i32Inst u64Inst 1 (by decide)⟩

/-! ### C10 — out-of-range `get_uref` -/

/-- C10: `Runtime::get_uref` with an index at or past the number of
known URefs hits the `unwrap` of `None` and panics (modelled as
`none`); its result type has no error channel, unlike `load_arg`,
which at an out-of-range index does return `ArgIndexOutOfBounds`. In
range, `get_uref` succeeds. -/
theorem c10_get_uref_panics (rt : Runtime) (i : Nat)
    (h : rt.knownUrefs.length ≤ i) :
    Runtime.getUref rt i = none ∧
    (rt.args.length ≤ i → Runtime.loadArg rt i = .error (.argIndexOutOfBounds i)) ∧
    (∀ j, j < rt.knownUrefs.length → (Runtime.getUref rt j).isSome = true) := by
  refine ⟨?_, ?_, ?_⟩
  · simp [Runtime.getUref, List.get?_eq_none]
    omega
  · intro h2
    simp [Runtime.loadArg]
    omega
  · intro j hj
    simp [Runtime.getUref, List.getElem?_eq_getElem hj]

/-- C10 witness: the empty runtime at index 0. -/
theorem c10_witness :
    Runtime.getUref rtEmpty 0 = none ∧
    Runtime.loadArg rtEmpty 0 = .error (.argIndexOutOfBounds 0) := by
  have h := c10_get_uref_panics rtEmpty 0 (by simp [rtEmpty])
  exact ⟨h.1, h.2.1 (by simp [rtEmpty])⟩

/-- The `ToBytes` wire form does place the length-prefixed bytes before
the type tag. -/
theorem clValueToBytes_wire (cv : CLValue) (h : cv.bytes.length < 2 ^ 32) :
    clValueToBytes cv = .ok (u32le cv.bytes.length ++ cv.bytes ++ clTypeEnc cv.clType) := by
  have h2 : cv.bytes.length < 4294967296 := by omega
  simp [clValueToBytes, vecU8ToBytes, h2, List.append_assoc]

/-- Serialize-then-deserialize round-trips for the `ToBytes` /
`FromBytes` pair. -/
theorem clValue_toBytes_roundtrip (cv : CLValue) (h : cv.bytes.length < 2 ^ 32)
    (hw : cv.clType.wfB = true) :
    deserializeCLValue (u32le cv.bytes.length ++ cv.bytes ++ clTypeEnc cv.clType) = .ok cv := by
  have hfb := clValueFromBytes_wire cv h hw
  rw [List.append_assoc] at hfb
  simp [deserializeCLValue, List.append_assoc, hfb]

/-- C5: the claim states that CLValue's wire form places the
length-prefixed bytes BEFORE the type tag and that serializing then
deserializing with the cited functions recovers the value. The
`IntoBytes` impl (`cl_value.rs`, lines 74-85) violates this: at the
failing input it emits the type tag first, producing bytes that differ
from the bytes-first form and that `FromBytes` misparses (the leading
tag byte is consumed as part of a bogus length prefix). The `ToBytes`
impl and `FromBytes` do follow the claimed order and round-trip, so
`IntoBytes` also contradicts its own deserializer and the module's
round-trip test. -/
theorem c5_intobytes_breaks_roundtrip :
    clValueIntoBytes cvSample = .ok [1, 4, 0, 0, 0, 7, 0, 0, 0] ∧
    ([1, 4, 0, 0, 0, 7, 0, 0, 0] : List Nat) ≠ [4, 0, 0, 0, 7, 0, 0, 0] ++ [1] ∧
    deserializeCLValue [1, 4, 0, 0, 0, 7, 0, 0, 0] = .error .earlyEndOfStream ∧
    clValueToBytes cvSample = .ok ([4, 0, 0, 0, 7, 0, 0, 0] ++ [1]) ∧
    deserializeCLValue [4, 0, 0, 0, 7, 0, 0, 0, 1] = .ok cvSample :=
  ⟨rfl, by decide, rfl, rfl, rfl⟩

theorem sumMeter_append (meter : Key → StoredValue → Nat) (a b : List (Key × StoredValue)) :
    sumMeter meter (a ++ b) = sumMeter meter a + sumMeter meter b := by
  induction a with
  | nil => simp [sumMeter]
  | cons e rest ih => simp [sumMeter] at *; omega

theorem sumMeter_erase_le (meter : Key → StoredValue → Nat) (l : List (Key × StoredValue))
    (k : Key) : sumMeter meter (assocErase l k) ≤ sumMeter meter l := by
  induction l with
  | nil => simp [assocErase]
  | cons e rest ih =>
    by_cases he : e.1 = k
    · simp [assocErase, sumMeter, he] at *
      omega
    · simp [assocErase, sumMeter, he] at *
      omega

theorem sumMeter_insert (meter : Key → StoredValue → Nat) (l : List (Key × StoredValue))
    (k : Key) (v : StoredValue) :
    sumMeter meter (assocInsert k v l) = sumMeter meter (assocErase l k) + meter k v := by
  unfold assocInsert
  rw [sumMeter_append]
  simp [sumMeter]

theorem sumMeter_lookup_le (meter : Key → StoredValue → Nat) (l : List (Key × StoredValue))
    (k : Key) (v : StoredValue) (h : assocLookup l k = some v) :
    sumMeter meter (assocErase l k) + meter k v ≤ sumMeter meter l := by
  induction l with
  | nil => simp [assocLookup] at h
  | cons e rest ih =>
    obtain ⟨a, b⟩ := e
    by_cases he : a = k
    · simp [assocLookup, he] at h
      subst he
      subst h
      have := sumMeter_erase_le meter rest a
      simp [assocErase, sumMeter] at *
      omega
    · simp only [assocLookup, he, if_neg] at h
      have := ih h
      simp [assocErase, sumMeter, he] at *
      omega

theorem evictLoop_bound (meter : Key → StoredValue → Nat) (ms : Nat) :
    ∀ (reads : List (Key × StoredValue)) (size : Nat),
      sumMeter meter reads ≤ size → size - sumMeter meter reads ≤ ms →
      sumMeter meter (evictLoop meter ms reads size).1 ≤ (evictLoop meter ms reads size).2 ∧
        (evictLoop meter ms reads size).2 ≤ ms := by
  intro reads
  induction reads with
  | nil =>
    intro size h1 h2
    simp [evictLoop, sumMeter] at *
    omega
  | cons e rest ih =>
    intro size h1 h2
    by_cases hle : size ≤ ms
    · rw [show evictLoop meter ms (e :: rest) size = (e :: rest, size) from by
        simp [evictLoop, hle]]
      exact ⟨h1, hle⟩
    · have hrw : evictLoop meter ms (e :: rest) size =
          evictLoop meter ms rest (size - meter e.1 e.2) := by
        simp [evictLoop, hle]
      have hsum : meter e.1 e.2 + sumMeter meter rest = sumMeter meter (e :: rest) := by
        simp [sumMeter]
      rw [hrw]
      exact ih (size - meter e.1 e.2) (by omega) (by omega)

theorem insertRead_inv (meter : Key → StoredValue → Nat) (c : TCCache) (k : Key)
    (v : StoredValue) (h : cacheInv meter c) :
    cacheInv meter (c.insertRead meter k v) ∧ (c.insertRead meter k v).maxSize = c.maxSize := by
  obtain ⟨h1, h2⟩ := h
  have herase := sumMeter_erase_le meter c.reads k
  have hins := sumMeter_insert meter c.reads k v
  have hpre1 : sumMeter meter (assocInsert k v c.reads) ≤ c.currentSize + meter k v := by
    omega
  have hpre2 : (c.currentSize + meter k v) - sumMeter meter (assocInsert k v c.reads) ≤
      c.maxSize := by
    omega
  have hev := evictLoop_bound meter c.maxSize (assocInsert k v c.reads)
    (c.currentSize + meter k v) hpre1 hpre2
  exact ⟨⟨hev.1, hev.2⟩, rfl⟩

theorem get_inv (meter : Key → StoredValue → Nat) (c : TCCache) (k : Key)
    (h : cacheInv meter c) :
    cacheInv meter (c.get k).2 ∧ ((c.get k).2).maxSize = c.maxSize := by
  obtain ⟨h1, h2⟩ := h
  unfold TCCache.get
  cases hm : assocLookup c.muts k with
  | some v => exact ⟨⟨h1, h2⟩, rfl⟩
  | none =>
    cases hr : assocLookup c.reads k with
    | some v =>
      have hlk := sumMeter_lookup_le meter c.reads k v hr
      have hins := sumMeter_insert meter c.reads k v
      refine ⟨⟨?_, h2⟩, rfl⟩
      show sumMeter meter (assocInsert k v c.reads) ≤ c.currentSize
      omega
    | none => exact ⟨⟨h1, h2⟩, rfl⟩

theorem runCacheOp_inv (meter : Key → StoredValue → Nat) (c : TCCache) (op : CacheOp)
    (h : cacheInv meter c) :
    cacheInv meter (runCacheOp meter c op) ∧ (runCacheOp meter c op).maxSize = c.maxSize := by
  cases op with
  | insertRead k v => exact insertRead_inv meter c k v h
  | insertWrite k v => exact ⟨⟨h.1, h.2⟩, rfl⟩
  | getOp k => exact get_inv meter c k h

theorem runCacheOps_inv (meter : Key → StoredValue → Nat) (ops : List CacheOp) :
    ∀ c : TCCache, cacheInv meter c →
      cacheInv meter (runCacheOps meter c ops) ∧
        (runCacheOps meter c ops).maxSize = c.maxSize := by
  induction ops with
  | nil => intro c h; exact ⟨h, rfl⟩
  | cons op rest ih =>
    intro c h
    have hstep := runCacheOp_inv meter c op h
    have htail := ih (runCacheOp meter c op) hstep.1
    refine ⟨htail.1, ?_⟩
    rw [show runCacheOps meter c (op :: rest) = runCacheOps meter (runCacheOp meter c op) rest
      from rfl]
    rw [htail.2, hstep.2]

/-- C7: after any finite sequence of `insert_read` calls (with `get`
and `insert_write` interleaved arbitrarily, and with repeated
insertions of the same key allowed), the cache's `current_cache_size`
stays within `max_cache_size` plus the largest single measured element
size. (In fact `current_cache_size ≤ max_cache_size` outright: the
eviction loop cannot stop above budget, because the over-count left by
replacing an existing key never exceeds the budget.) -/
theorem c7_cache_size_bound (meter : Key → StoredValue → Nat) (maxSize : Nat)
    (ops : List CacheOp) :
    (runCacheOps meter (TCCache.new maxSize) ops).currentSize ≤
      maxSize + maxElemSize meter ops := by
  have hinit : cacheInv meter (TCCache.new maxSize) := by
    constructor <;> simp [TCCache.new, sumMeter]
  have h := runCacheOps_inv meter ops (TCCache.new maxSize) hinit
  have : (runCacheOps meter (TCCache.new maxSize) ops).currentSize ≤ maxSize := by
    have := h.1.2
    rw [h.2] at this
    exact this
  omega

/-! ### C8 — query bypasses the cache -/

theorem get_snd_reader (tc : TrackingCopy) (k : Key) : ((tc.get k).2).reader = tc.reader := by
  unfold TrackingCopy.get
  cases hc : tc.cache.get k with
  | mk o c2 =>
    cases o with
    | some v => rfl
    | none => cases assocLookup tc.reader k <;> rfl

theorem addApplyStep_snd_reader (tc : TrackingCopy) (nk : Key) (tr : Transform)
    (cur : StoredValue) : ((addApplyStep tc nk tr cur).2).reader = tc.reader := by
  unfold addApplyStep
  cases tr.apply cur with
  | ok nv => rfl
  | error e => cases e <;> rfl

theorem add_snd_reader (tc : TrackingCopy) (k : Key) (v : StoredValue) :
    ((tc.add k v).2).reader = tc.reader := by
  have hget := get_snd_reader tc k.normalize
  rcases hg : tc.get k.normalize with ⟨o, tc2⟩
  rw [hg] at hget
  have hget2 : tc2.reader = tc.reader := hget
  cases o with
  | none => simp only [TrackingCopy.add, hg]; exact hget2
  | some cur =>
    cases v with
    | clValue cv =>
      simp only [TrackingCopy.add, hg]
      split_ifs <;> (try exact hget2) <;>
        (split <;>
          first
            | exact hget2
            | (rw [addApplyStep_snd_reader]; exact hget2))
    | account a => simp only [TrackingCopy.add, hg]; exact hget2
    | contract c => simp only [TrackingCopy.add, hg]; exact hget2
    | contractPackage => simp only [TrackingCopy.add, hg]; exact hget2
    | contractWasm => simp only [TrackingCopy.add, hg]; exact hget2

/-- C8: `query` reads only through the immutable reader and never
consults the caches — a preceding `write` (or `add`) to any key leaves
every query result unchanged, and querying a freshly written key with
an empty path still returns the reader's pre-write value (or
`ValueNotFound` when the reader has no value for it). -/
theorem c8_query_bypasses_cache (tc : TrackingCopy) (k : Key) (v : StoredValue)
    (base : Key) (path : List RustStr) :
    ((tc.write k v).query base path = tc.query base path) ∧
    (((tc.add k v).2).query base path = tc.query base path) ∧
    ((tc.write k v).query k [] =
      some (match assocLookup tc.reader k.normalize with
        | some sv => QueryResult.success sv
        | none => .valueNotFound "Failed to find base key")) := by
  refine ⟨rfl, ?_, ?_⟩
  · unfold TrackingCopy.query
    rw [add_snd_reader]
  · show tc.query k [] = _
    unfold TrackingCopy.query
    rw [show tc.reader.length + 1 = tc.reader.length + 1 from rfl]
    cases hr : assocLookup tc.reader k.normalize <;>
      simp [queryLoop, QueryState.init, hr]

theorem filter_imp_length_le (l : List Key) (p q : Key → Bool)
    (h : ∀ x, p x = true → q x = true) :
    (l.filter p).length ≤ (l.filter q).length := by
  induction l with
  | nil => simp
  | cons a rest ih =>
    cases hp : p a with
    | true =>
      have hq := h a hp
      simp only [List.filter_cons, hp, hq, if_true]
      simp only [List.length_cons]
      omega
    | false =>
      cases hq : q a <;> simp only [List.filter_cons, hp, hq] <;> simp <;> omega

theorem count_insert_lt (l : List Key) (k : Key) (vis : List Key)
    (hmem : k ∈ l) (hnv : k ∉ vis) :
    (l.filter (fun x => decide (x ∉ k :: vis))).length <
      (l.filter (fun x => decide (x ∉ vis))).length := by
  induction l with
  | nil => simp at hmem
  | cons a rest ih =>
    have himp : ∀ x, decide (x ∉ k :: vis) = true → decide (x ∉ vis) = true := by
      intro x hx
      simp at hx ⊢
      exact fun hv => hx.2 hv
    simp only [List.filter_cons]
    by_cases hak : a = k
    · subst hak
      have h1 : ¬(decide (a ∉ a :: vis) = true) := by simp
      have h2 : decide (a ∉ vis) = true := by simpa using hnv
      rw [if_neg h1, if_pos h2, List.length_cons]
      have hle := filter_imp_length_le rest (fun x => decide (x ∉ a :: vis))
        (fun x => decide (x ∉ vis)) himp
      exact Nat.lt_succ_of_le hle
    · have hmem2 : k ∈ rest := by
        cases hmem with
        | head => exact absurd rfl hak
        | tail _ hm => exact hm
      have heq : decide (a ∉ k :: vis) = decide (a ∉ vis) := by
        apply decide_eq_decide.mpr
        simp [List.mem_cons, hak]
      simp only [heq]
      by_cases hav : a ∈ vis
      · have hn : ¬(decide (a ∉ vis) = true) := by simp [hav]
        rw [if_neg hn, if_neg hn]
        exact ih hmem2
      · have hp : decide (a ∉ vis) = true := by simpa using hav
        rw [if_pos hp, if_pos hp, List.length_cons, List.length_cons]
        exact Nat.succ_lt_succ (ih hmem2)

theorem assocLookup_mem_fst {α β : Type} [DecidableEq α] (l : List (α × β)) (k : α) (v : β)
    (h : assocLookup l k = some v) : k ∈ l.map Prod.fst := by
  have := assocLookup_mem_pair l k v h
  exact List.mem_map_of_mem Prod.fst this

theorem count_lt_of_lookup (reader : List (Key × StoredValue)) (vis : List Key)
    (k : Key) (sv : StoredValue) (hr : assocLookup reader k = some sv) (hnv : k ∉ vis) :
    unvisitedCount reader (k :: vis) < unvisitedCount reader vis :=
  count_insert_lt (reader.map Prod.fst) k vis (assocLookup_mem_fst reader k sv hr) hnv

theorem queryLoop_isSome (reader : List (Key × StoredValue)) :
    ∀ (fuel : Nat) (q : QueryState), unvisitedCount reader q.visitedKeys < fuel →
      (queryLoop reader q fuel).isSome = true := by
  intro fuel
  induction fuel with
  | zero => intro q h; omega
  | succ f ih =>
    intro q hcount
    by_cases hmem : q.currentKey ∈ q.visitedKeys
    · simp [queryLoop, hmem]
    · cases hr : assocLookup reader q.currentKey with
      | none => simp [queryLoop, hmem, hr]
      | some sv =>
        have hlt : unvisitedCount reader (q.currentKey :: q.visitedKeys) < f := by
          have := count_lt_of_lookup reader q.visitedKeys q.currentKey sv hr hmem
          omega
        cases hnames : q.unvisitedNames with
        | nil => simp [queryLoop, hmem, hr, hnames]
        | cons name restNames =>
          cases sv with
          | account a =>
            cases hk : assocLookup a.namedKeys name with
            | none => simp [queryLoop, hmem, hr, hnames, hk]
            | some key =>
              simp only [queryLoop, hmem, if_false, hr, hnames, hk]
              exact ih _ hlt
          | contract c =>
            cases hk : assocLookup c.namedKeys name with
            | none => simp [queryLoop, hmem, hr, hnames, hk]
            | some key =>
              simp only [queryLoop, hmem, if_false, hr, hnames, hk]
              exact ih _ hlt
          | clValue cv =>
            by_cases hct : cv.clType = .key
            · cases hkk : intoT keyInst cv with
              | ok key =>
                simp only [queryLoop, hmem, if_false, hr, hnames, hct, if_true, hkk]
                exact ih _ hlt
              | error e => simp [queryLoop, hmem, hr, hnames, hct, hkk]
            · simp [queryLoop, hmem, hr, hnames, hct]
          | contractPackage => simp [queryLoop, hmem, hr, hnames]
          | contractWasm => simp [queryLoop, hmem, hr, hnames]

/-- C9: the query loop terminates for every base key, every finite
path and every reader snapshot — fuel one larger than the number of
reader entries always yields a result, because every continuing
iteration moves to a reader key not yet in the visited set (a name may
also be consumed, but the unvisited-keys measure alone suffices) — and
revisiting a key is detected immediately, returning
`CircularReference`. -/
theorem c9_query_terminates :
    (∀ (tc : TrackingCopy) (base : Key) (path : List RustStr),
      ∃ r, tc.query base path = some r) ∧
    (∀ (reader : List (Key × StoredValue)) (q : QueryState) (fuel : Nat),
      q.currentKey ∈ q.visitedKeys →
      queryLoop reader q (fuel + 1) = some .circularReference) := by
  constructor
  · intro tc base path
    have hcount : unvisitedCount tc.reader [] < tc.reader.length + 1 := by
      have h1 : ((tc.reader.map Prod.fst).filter (fun k => decide (k ∉ ([] : List Key)))).length
          ≤ (tc.reader.map Prod.fst).length := List.length_filter_le _ _
      have h2 : (tc.reader.map Prod.fst).length = tc.reader.length := List.length_map _ _
      unfold unvisitedCount
      omega
    have h := queryLoop_isSome tc.reader (tc.reader.length + 1)
      (QueryState.init base path) hcount
    exact Option.isSome_iff_exists.mp h
  · intro reader q fuel hmem
    simp [queryLoop, hmem]

/-- C9 witness: a query over the empty reader completes, and a state
whose current key is already visited reports a circular reference. -/
theorem c9_witness :
    (∃ r, tcEmpty.query (Key.hash 1) [] = some r) ∧
    queryLoop [] qStateCirc 1 = some .circularReference := by
  constructor
  · exact c9_query_terminates.1 tcEmpty (Key.hash 1) []
  · exact c9_query_terminates.2 [] qStateCirc 0 (by decide)

/-! ### C3 — type dispatch in `add` -/

theorem get_snd_ops_fns (tc : TrackingCopy) (k : Key) :
    ((tc.get k).2).ops = tc.ops ∧ ((tc.get k).2).fns = tc.fns := by
  unfold TrackingCopy.get
  cases hc : tc.cache.get k with
  | mk o c2 =>
    cases o with
    | some v => exact ⟨rfl, rfl⟩
    | none => cases assocLookup tc.reader k <;> exact ⟨rfl, rfl⟩

theorem evictLoop_suffix (meter : Key → StoredValue → Nat) (ms : Nat) :
    ∀ (reads : List (Key × StoredValue)) (size : Nat),
      (evictLoop meter ms reads size).1 <:+ reads := by
  intro reads
  induction reads with
  | nil => intro size; simp [evictLoop]
  | cons e rest ih =>
    intro size
    by_cases hle : size ≤ ms
    · simp [evictLoop, hle]
    · rw [show evictLoop meter ms (e :: rest) size =
          evictLoop meter ms rest (size - meter e.1 e.2) from by simp [evictLoop, hle]]
      exact (ih (size - meter e.1 e.2)).trans (List.suffix_cons e rest)

theorem lookup_suffix_insert (l : List (Key × StoredValue)) (k : Key) (v : StoredValue)
    (l2 : List (Key × StoredValue)) (hsuff : l2 <:+ assocInsert k v l) :
    assocLookup l2 k = none ∨ assocLookup l2 k = some v := by
  cases hl : assocLookup l2 k with
  | none => exact Or.inl rfl
  | some w =>
    refine Or.inr ?_
    have hmem := assocLookup_mem_pair l2 k w hl
    have hmem2 : (k, w) ∈ assocInsert k v l := hsuff.subset hmem
    unfold assocInsert at hmem2
    rcases List.mem_append.mp hmem2 with hin | hin
    · exact absurd hin (assocErase_no_key l k w)
    · simp at hin
      rw [hin]

theorem insertRead_muts (meter : Key → StoredValue → Nat) (c : TCCache) (k : Key)
    (v : StoredValue) : (TCCache.insertRead meter c k v).muts = c.muts := rfl

theorem get_stable (tc : TrackingCopy) (k : Key) (cur : StoredValue) (tc2 : TrackingCopy)
    (h : tc.get k = (some cur, tc2)) : (tc2.get k).1 = some cur := by
  cases hm : assocLookup tc.cache.muts k with
  | some w =>
    simp only [TrackingCopy.get, TCCache.get, hm] at h
    injection h with h1 h2
    injection h1 with h1
    subst h2
    subst h1
    simp [TrackingCopy.get, TCCache.get, hm]
  | none =>
    cases hrd : assocLookup tc.cache.reads k with
    | some w =>
      simp only [TrackingCopy.get, TCCache.get, hm, hrd] at h
      injection h with h1 h2
      injection h1 with h1
      subst h2
      subst h1
      simp [TrackingCopy.get, TCCache.get, hm, assocLookup_insert_self]
    | none =>
      cases hr : assocLookup tc.reader k with
      | none =>
        simp only [TrackingCopy.get, TCCache.get, hm, hrd, hr] at h
        injection h with h1 h2
        exact Option.noConfusion h1
      | some w =>
        simp only [TrackingCopy.get, TCCache.get, hm, hrd, hr] at h
        injection h with h1 h2
        injection h1 with h1
        subst h2
        subst h1
        have hsuff := evictLoop_suffix heapSize tc.cache.maxSize
          (assocInsert k w tc.cache.reads) (tc.cache.currentSize + heapSize k w)
        have hrds : (tc.cache.insertRead heapSize k w).reads =
            (evictLoop heapSize tc.cache.maxSize (assocInsert k w tc.cache.reads)
              (tc.cache.currentSize + heapSize k w)).1 := rfl
        cases hb : assocLookup (tc.cache.insertRead heapSize k w).reads k with
        | some w2 =>
          have halt : assocLookup (tc.cache.insertRead heapSize k w).reads k = none ∨
              assocLookup (tc.cache.insertRead heapSize k w).reads k = some w := by
            apply lookup_suffix_insert tc.cache.reads k w
            rw [hrds]
            exact hsuff
          rw [hb] at halt
          rcases halt with hno | hsome
          · exact absurd hno (by simp)
          · injection hsome with hw2
            subst hw2
            simp [TrackingCopy.get, TCCache.get, insertRead_muts, hm, hb]
        | none =>
          simp [TrackingCopy.get, TCCache.get, insertRead_muts, hm, hb, hr]

/-- C3: when the key has a current value, `add` of a value that is not
a CLValue of type I32 / U64 / U128 / U256 / U512 / Tuple2(String, Key)
returns `TypeMismatch` with exactly that expected list and the value's
`type_name` as found, leaving the value under the key, the ops map and
the transforms map unchanged; and `add` of a (canonically encoded)
CLValue of one of those types applies exactly the corresponding
transform — `AddInt32` ... `AddUInt512`, or `AddKeys` with a one-entry
map for the named-key tuple — through the apply-and-record step. -/
theorem c3_add_type_dispatch (tc : TrackingCopy) (k : Key) (cur : StoredValue)
    (tc2 : TrackingCopy) (hget : tc.get k.normalize = (some cur, tc2)) :
    (∀ v : StoredValue, isSupportedAdd v = false →
      tc.add k v = (.typeMismatch { expected := expectedAddStr, found := typeName v }, tc2) ∧
      (tc2.get k.normalize).1 = some cur ∧ tc2.ops = tc.ops ∧ tc2.fns = tc.fns) ∧
    (∀ x : Nat, x < 2 ^ 32 → tc.add k (.clValue (fromT i32Inst x)) =
      addApplyStep tc2 k.normalize (.addInt32 x) cur) ∧
    (∀ x : Nat, x < 2 ^ 64 → tc.add k (.clValue (fromT u64Inst x)) =
      addApplyStep tc2 k.normalize (.addUInt64 x) cur) ∧
    (∀ x : Nat, x < 2 ^ 128 → tc.add k (.clValue (fromT u128Inst x)) =
      addApplyStep tc2 k.normalize (.addUInt128 x) cur) ∧
    (∀ x : Nat, x < 2 ^ 256 → tc.add k (.clValue (fromT u256Inst x)) =
      addApplyStep tc2 k.normalize (.addUInt256 x) cur) ∧
    (∀ x : Nat, x < 2 ^ 512 → tc.add k (.clValue (fromT u512Inst x)) =
      addApplyStep tc2 k.normalize (.addUInt512 x) cur) ∧
    (∀ (s : RustStr) (kk : Key), s.length < 2 ^ 32 → kk.wfB = true →
      tc.add k (.clValue (fromT namedKeyInst (s, kk))) =
        addApplyStep tc2 k.normalize (.addKeys [(s, kk)]) cur) := by
  have hops := get_snd_ops_fns tc k.normalize
  rw [hget] at hops
  refine ⟨?_, ?_, ?_, ?_, ?_, ?_, ?_⟩
  · intro v hv
    refine ⟨?_, get_stable tc k.normalize cur tc2 hget, hops.1, hops.2⟩
    cases v with
    | clValue cv =>
      simp only [isSupportedAdd, Bool.or_eq_false_iff, decide_eq_false_iff_not] at hv
      obtain ⟨⟨⟨⟨⟨h1, h2⟩, h3⟩, h4⟩, h5⟩, h6⟩ := hv
      simp [TrackingCopy.add, hget, h1, h2, h3, h4, h5, h6]
    | account a => simp [TrackingCopy.add, hget]
    | contract c => simp [TrackingCopy.add, hget]
    | contractPackage => simp [TrackingCopy.add, hget]
    | contractWasm => simp [TrackingCopy.add, hget]
  · intro x hx
    have hcl : (fromT i32Inst x).clType = CLType.i32 := rfl
    simp [TrackingCopy.add, hget, hcl, intoT_fromT_i32 x hx]
  · intro x hx
    have hcl : (fromT u64Inst x).clType = CLType.u64 := rfl
    simp [TrackingCopy.add, hget, hcl, intoT_fromT_u64 x hx]
  · intro x hx
    have hcl : (fromT u128Inst x).clType = CLType.u128 := rfl
    simp [TrackingCopy.add, hget, hcl, intoT_fromT_u128 x]
  · intro x hx
    have hcl : (fromT u256Inst x).clType = CLType.u256 := rfl
    simp [TrackingCopy.add, hget, hcl, intoT_fromT_u256 x]
  · intro x hx
    have hcl : (fromT u512Inst x).clType = CLType.u512 := rfl
    simp [TrackingCopy.add, hget, hcl, intoT_fromT_u512 x]
  · intro s kk hs hk
    have hcl : (fromT namedKeyInst (s, kk)).clType = namedKeyType := rfl
    simp [TrackingCopy.add, hget, hcl, namedKeyType, intoT_fromT_namedKey s kk hs hk]

/-- C3 witness: the dispatch theorem evaluated on a concrete state —
a U64 add, a named-key add, and an unsupported value. -/
theorem c3_witness :
    tcC3.add keyC3 (.clValue (fromT u64Inst 1)) =
      addApplyStep tc2C3 keyC3.normalize (.addUInt64 1) curC3 ∧
    tcC3.add keyC3 .contractWasm =
      (.typeMismatch { expected := expectedAddStr, found := "ContractWasm" }, tc2C3) ∧
    tcC3.add keyC3 (.clValue (fromT namedKeyInst ([97], Key.hash 7))) =
      addApplyStep tc2C3 keyC3.normalize (.addKeys [([97], Key.hash 7)]) curC3 := by
  have h := c3_add_type_dispatch tcC3 keyC3 curC3 tc2C3 rfl
  exact ⟨h.2.2.1 1 (by norm_num),
    (h.1 .contractWasm rfl).1,
    h.2.2.2.2.2.2 [97] (Key.hash 7) (by norm_num) (by decide)⟩

end Casper

